import Mathlib

/-!
Verification model of the yuzu `VideoCommon::BufferCache` core
(`src/video_core/buffer_cache/buffer_cache.h`).

The cache is shallowly embedded: guest addresses and buffer ids are `Nat`
(the source's `VAddr` is `u64` and `BufferId` a 32-bit slot index; no claim
depends on wrap-around of either), the per-buffer sparse dirty state is a
`Finset` of byte offsets, and the page table is a function from page index
to buffer id.  The `BufferBase` collaborator (`buffer_base.h`), the
`SlotVector` arena and the `Settings` singleton are not part of the source
tree; they are modelled from the specification where so marked.

Two sentinel conventions of the source are merged into the single value `0`:
the empty page-table entry (a default `SlotId`, falsy in the source) and the
null buffer (slot 0).  This is sound because slot 0 is never registered in
the page table and a registered buffer id is never the empty sentinel, so
the two values never occur in the same position.
-/

namespace VideoCommon

abbrev VAddr := Nat
abbrev BufferId := Nat

/-- Page size for caching purposes, `PAGE_BITS = 16`. -/
def PAGE_BITS : Nat := 16

/-- `PAGE_SIZE = 1 <<< PAGE_BITS`. -/
def PAGE_SIZE : Nat := 2 ^ PAGE_BITS

/-- `Common::DivCeil` on machine integers: `(a + b - 1) / b`. -/
def divCeil (a b : Nat) : Nat := (a + b - 1) / b

/-- `DEFAULT_SKIP_CACHE_SIZE = 4096`. -/
def DEFAULT_SKIP_CACHE_SIZE : Nat := 4096

/-- Modelled from the spec: a buffer slot owns a guest CPU address, a byte
size, two independent sparse sets over its byte extent (CPU-modified and
GPU-modified, stored as `Finset`s of byte offsets relative to `cpu_addr`),
a non-negative stream score, and a picked flag used by `ResolveOverlaps`.
The host handle and cached-writes state are omitted: no claim observes
them.  `alive` models whether the slot currently holds a live buffer
(cleared when `DeleteBuffer` hands the storage to the delayed destruction
ring). -/
structure Buffer where
  cpu_addr : VAddr
  size_bytes : Nat
  cpu_modified : Finset Nat
  gpu_modified : Finset Nat
  stream_score : Nat
  picked : Bool
  alive : Bool
deriving DecidableEq

/-- Modelled from the spec: the reserved slot-0 null buffer ("no binding"),
with address 0 and size 0. -/
def nullBuffer : Buffer :=
  { cpu_addr := 0, size_bytes := 0, cpu_modified := ∅, gpu_modified := ∅
    stream_score := 0, picked := false, alive := true }

/-- Modelled from the spec: the byte offsets, relative to the buffer start,
of the part of the absolute guest range `[addr, addr + size)` that lies
inside the buffer's extent.  `BufferBase` region operations take an
absolute guest address and clamp the range to the buffer (callers such as
`WriteMemory` and `DeleteBuffer` pass ranges larger than the buffer). -/
def regionOffsets (b : Buffer) (addr size : Nat) : Finset Nat :=
  (Finset.Ico (max addr b.cpu_addr) (min (addr + size) (b.cpu_addr + b.size_bytes))).image
    (fun a => a - b.cpu_addr)

/-- Modelled from the spec: `BufferBase::MarkRegionAsGpuModified`. -/
def markRegionAsGpuModified (b : Buffer) (addr size : Nat) : Buffer :=
  { b with gpu_modified := b.gpu_modified ∪ regionOffsets b addr size }

/-- Modelled from the spec: `BufferBase::UnmarkRegionAsCpuModified`. -/
def unmarkRegionAsCpuModified (b : Buffer) (addr size : Nat) : Buffer :=
  { b with cpu_modified := b.cpu_modified \ regionOffsets b addr size }

/-- Modelled from the spec: `BufferBase::MarkRegionAsCpuModified`. -/
def markRegionAsCpuModified (b : Buffer) (addr size : Nat) : Buffer :=
  { b with cpu_modified := b.cpu_modified ∪ regionOffsets b addr size }

/-- Modelled from the spec: `BufferBase::IsRegionGpuModified` — true when
some byte of the absolute guest range is in the buffer's GPU-modified
set. -/
def isRegionGpuModified (b : Buffer) (addr size : Nat) : Bool :=
  decide (b.gpu_modified ∩ regionOffsets b addr size).Nonempty

/-- Modelled from the spec: `BufferBase::IsInBounds` — the buffer's extent
fully contains the absolute guest range `[addr, addr + size)`. -/
def IsInBounds (b : Buffer) (addr size : Nat) : Bool :=
  decide (b.cpu_addr ≤ addr) && decide (addr + size ≤ b.cpu_addr + b.size_bytes)

/-- Maximal runs of `mem` inside `[0, n)`, most recent run first.  A run
`(b, l)` stands for the consecutive offsets `[b, b + l)`.  Used to model
the collaborator's modified-range enumeration. -/
def runsRev (mem : Nat → Bool) : Nat → List (Nat × Nat)
  | 0 => []
  | n + 1 =>
    if mem n then
      match runsRev mem n with
      | [] => [(n, 1)]
      | (b, l) :: rest => if b + l = n then (b, l + 1) :: rest else (n, 1) :: (b, l) :: rest
    else runsRev mem n

/-- Modelled from the spec: `BufferBase::ForEachDownloadRange` over the whole
buffer enumerates the maximal GPU-modified ranges as buffer-relative
`(offset, size)` pairs, in ascending order. -/
def downloadRuns (b : Buffer) : List (Nat × Nat) :=
  (runsRev (fun o => decide (o ∈ b.gpu_modified)) b.size_bytes).reverse

/-- Modelled from the spec: `BufferBase::ForEachUploadRange (addr, size)`
enumerates the maximal CPU-modified ranges intersected with the queried
absolute guest range, as buffer-relative `(offset, size)` pairs. -/
def uploadRuns (b : Buffer) (addr size : Nat) : List (Nat × Nat) :=
  (runsRev (fun o => decide (o ∈ b.cpu_modified) && decide (o ∈ regionOffsets b addr size))
    b.size_bytes).reverse

/-- `VideoCommon::BufferCopy`. -/
structure BufferCopy where
  src_offset : Nat
  dst_offset : Nat
  size : Nat
deriving DecidableEq

/-- A uniform/storage/vertex binding: `(cpu_addr, size, buffer_id)`. -/
structure Binding where
  cpu_addr : VAddr
  size : Nat
  buffer_id : BufferId
deriving DecidableEq

/-- `NULL_BINDING`: `cpu_addr = 0`, `size = 0`, `buffer_id = NULL_BUFFER_ID`. -/
def NULL_BINDING : Binding := { cpu_addr := 0, size := 0, buffer_id := 0 }

/-- `BufferCache::BindGraphicsUniformBuffer` (buffer_cache.h:421-430).  The
source unconditionally dereferences the `std::optional` returned by
`GpuToCpuAddress`; the `none` result models the undefined behaviour of
`*cpu_addr` on an empty optional — there is no code path that produces a
binding in that case. -/
def BindGraphicsUniformBuffer (cpu_addr : Option VAddr) (size : Nat) : Option Binding :=
  cpu_addr.map fun a => { cpu_addr := a, size := size, buffer_id := 0 }

/-- The download-queue state: `uncommitted_downloads` plus the deque
`committed_downloads`.  The head of `committed` is the deque's front (the
most recently committed list, cf. `push_front`); the last element is the
back, which `PopAsyncFlushes` drains. -/
structure DownloadQueues where
  uncommitted : List BufferId
  committed : List (List BufferId)
deriving DecidableEq

/-- The download-queue half of `BufferCache::MarkWrittenBuffer`
(buffer_cache.h:1007-1011): append the id unless already present.  Only
reached when GPU accuracy is high and async GPU emulation is on. -/
def markUncommitted (q : DownloadQueues) (id : BufferId) : DownloadQueues :=
  if id ∈ q.uncommitted then q else { q with uncommitted := q.uncommitted ++ [id] }

/-- `BufferCache::CommitAsyncFlushes` (buffer_cache.h:555-559): push-front a
copy of the uncommitted list, then clear it. -/
def CommitAsyncFlushes (q : DownloadQueues) : DownloadQueues :=
  { uncommitted := [], committed := q.uncommitted :: q.committed }

/-- The queue effect of `BufferCache::PopAsyncFlushes`
(buffer_cache.h:562-570): if the deque is empty do nothing, otherwise the
scope guard pops the back element on every exit path. -/
def PopAsyncFlushes (q : DownloadQueues) : DownloadQueues :=
  if q.committed.isEmpty then q else { q with committed := q.committed.dropLast }

/-- `BufferCache::ShouldWaitAsyncFlushes` (buffer_cache.h:550-552): the deque
is non-empty and its front element is non-empty. -/
def ShouldWaitAsyncFlushes (q : DownloadQueues) : Bool :=
  !q.committed.isEmpty && !(q.committed.headD []).isEmpty

/-- `BufferCache::HasUncommittedFlushes` (buffer_cache.h:545-547). -/
def HasUncommittedFlushes (q : DownloadQueues) : Bool :=
  !q.uncommitted.isEmpty

/-- The erase pass of `ReplaceBufferDownloads`: keep the first occurrence of
`a`, remove every later occurrence (`std::remove(it + 1, end, a)`). -/
def dedupFirst (a : BufferId) : List BufferId → List BufferId
  | [] => []
  | x :: xs => if x = a then x :: xs.filter (fun y => y ≠ a) else x :: dedupFirst a xs

/-- One list of `BufferCache::ReplaceBufferDownloads`
(buffer_cache.h:1245-1249): `std::ranges::replace` old with new, then erase
every occurrence of new after the first. -/
def replaceList (old new : BufferId) (l : List BufferId) : List BufferId :=
  dedupFirst new (l.map fun x => if x = old then new else x)

/-- `BufferCache::ReplaceBufferDownloads` (buffer_cache.h:1244-1253), applied
to the uncommitted list and to every committed list. -/
def ReplaceBufferDownloads (q : DownloadQueues) (old new : BufferId) : DownloadQueues :=
  { uncommitted := replaceList old new q.uncommitted
    committed := q.committed.map (replaceList old new) }

/-- The public operations that touch the download queues. -/
inductive DOp where
  | mark (id : BufferId)
  | commit
  | pop
  | replace (old new : BufferId)

/-- One public operation on the download queues. -/
def dStep (q : DownloadQueues) : DOp → DownloadQueues
  | .mark id => markUncommitted q id
  | .commit => CommitAsyncFlushes q
  | .pop => PopAsyncFlushes q
  | .replace old new => ReplaceBufferDownloads q old new

/-- A sequence of public operations on the download queues. -/
def dRun (q : DownloadQueues) (ops : List DOp) : DownloadQueues :=
  ops.foldl dStep q

/-- No duplicate ids in the uncommitted list nor in any committed list. -/
def NodupQ (q : DownloadQueues) : Prop :=
  q.uncommitted.Nodup ∧ ∀ l ∈ q.committed, l.Nodup

/-- The whole cache state relevant to the claims: the slot arena (index =
`BufferId`, slot 0 = null buffer), the page table and the download queues.
Binding tables, cached-write ids and the destruction ring are omitted: no
claim observes them. -/
structure CacheState where
  slot_buffers : List Buffer
  page_table : Nat → BufferId
  downloads : DownloadQueues

/-- The buffer stored at a slot (the null buffer out of bounds). -/
def bufD (st : CacheState) (i : BufferId) : Buffer :=
  st.slot_buffers.getD i nullBuffer

/-- Number of allocated slots. -/
def numBuf (st : CacheState) : Nat := st.slot_buffers.length

/-- Replace the buffer stored at a slot. -/
def setBuf (st : CacheState) (i : BufferId) (b : Buffer) : CacheState :=
  { st with slot_buffers := st.slot_buffers.set i b }

/-- The state right after the constructor (buffer_cache.h:326-335): slot 0
holds the null buffer, the page table is empty, the queues are empty. -/
def initState : CacheState :=
  { slot_buffers := [nullBuffer], page_table := fun _ => 0
    downloads := { uncommitted := [], committed := [] } }

/-- First page of a buffer's extent: `cpu_addr / PAGE_SIZE`. -/
def pagesLo (b : Buffer) : Nat := b.cpu_addr / PAGE_SIZE

/-- One past the last page of a buffer's extent:
`DivCeil (cpu_addr + size, PAGE_SIZE)`. -/
def pagesHi (b : Buffer) : Nat := divCeil (b.cpu_addr + b.size_bytes) PAGE_SIZE

/-- The buffer's extent covers page `p`. -/
def coversPage (b : Buffer) (p : Nat) : Prop := pagesLo b ≤ p ∧ p < pagesHi b

instance (b : Buffer) (p : Nat) : Decidable (coversPage b p) := by
  unfold coversPage; infer_instance

/-- Slot `i` currently holds a live registered-or-registerable buffer: it is
not the reserved null slot, it is allocated, and it has not been handed to
the destruction ring. -/
def Live (st : CacheState) (i : BufferId) : Prop :=
  i ≠ 0 ∧ i < numBuf st ∧ (bufD st i).alive = true

instance (st : CacheState) (i : BufferId) : Decidable (Live st i) := by
  unfold Live; infer_instance

/-- Page-table exactness: every live buffer's pages map to it, and no other
page maps to it. -/
def Inv (st : CacheState) : Prop :=
  ∀ i, Live st i → ∀ p, (coversPage (bufD st i) p ↔ st.page_table p = i)

/-- Every non-null page-table entry denotes a live buffer. -/
def ValidEntries (st : CacheState) : Prop :=
  ∀ p, st.page_table p = 0 ∨ Live st (st.page_table p)

/-- Between operations no live buffer is left picked (the picked buffers of
a resolve are all deleted by the `JoinOverlap` calls of that create). -/
def NoPicked (st : CacheState) : Prop :=
  ∀ i, Live st i → (bufD st i).picked = false

/-- The combined state well-formedness invariant. -/
def WF (st : CacheState) : Prop :=
  1 ≤ numBuf st ∧ Inv st ∧ ValidEntries st ∧ NoPicked st

/-- `BufferCache::ChangeRegister` (buffer_cache.h:1121-1136): write the
buffer's id (insert) or the null id (erase) to every page of its extent. -/
def ChangeRegister (insert : Bool) (buffer_id : BufferId) (st : CacheState) : CacheState :=
  { st with page_table := fun p =>
      if pagesLo (bufD st buffer_id) ≤ p ∧ p < pagesHi (bufD st buffer_id) then
        (if insert then buffer_id else 0)
      else st.page_table p }

/-- `BufferCache::Register`. -/
def Register (buffer_id : BufferId) (st : CacheState) : CacheState :=
  ChangeRegister true buffer_id st

/-- `BufferCache::Unregister`. -/
def Unregister (buffer_id : BufferId) (st : CacheState) : CacheState :=
  ChangeRegister false buffer_id st

/-- `BufferCache::DeleteBuffer` (buffer_cache.h:1214-1241) restricted to the
modelled state: mark the whole buffer CPU-modified, unregister it from the
page table, and hand the storage to the destruction ring (`alive := false`).
The binding-table fix-ups, `cached_write_buffer_ids` erase and dirty-flag
notifications touch state no claim observes. -/
def DeleteBuffer (st : CacheState) (buffer_id : BufferId) : CacheState :=
  let b := bufD st buffer_id
  let st1 := setBuf st buffer_id (markRegionAsCpuModified b b.cpu_addr b.size_bytes)
  let st2 := Unregister buffer_id st1
  setBuf st2 buffer_id { bufD st2 buffer_id with alive := false }

/-- The per-range marking loop of `JoinOverlap`: for each enumerated range,
unmark CPU-modified and mark GPU-modified on the new buffer — passing the
range offsets exactly as the source does. -/
def joinMarkRuns (n : BufferId) (rs : List (Nat × Nat)) (st : CacheState) : CacheState :=
  rs.foldl (fun s r =>
    setBuf s n (markRegionAsGpuModified (unmarkRegionAsCpuModified (bufD s n) r.1 r.2)
      r.1 r.2)) st

/-- `BufferCache::JoinOverlap` (buffer_cache.h:1073-1097).  Returns the new
state and the batch of copies handed to `runtime.CopyBuffer`.  Note that
the source passes the overlap-relative range offset `begin` — not an
absolute guest address — to `UnmarkRegionAsCpuModified` and
`MarkRegionAsGpuModified` on the new buffer, although those collaborator
calls take absolute addresses at every other call site in the file; the
model reproduces that call faithfully. -/
def JoinOverlap (st : CacheState) (new_buffer_id overlap_id : BufferId)
    (accumulate_stream_score : Bool) : CacheState × List BufferCopy :=
  let overlap := bufD st overlap_id
  let st1 := if accumulate_stream_score then
      setBuf st new_buffer_id
        { bufD st new_buffer_id with
          stream_score := (bufD st new_buffer_id).stream_score + overlap.stream_score + 1 }
    else st
  let dst_base_offset := overlap.cpu_addr - (bufD st new_buffer_id).cpu_addr
  let rs := downloadRuns overlap
  let copies := rs.map fun r =>
    { src_offset := r.1, dst_offset := dst_base_offset + r.1, size := r.2 : BufferCopy }
  let st2 := joinMarkRuns new_buffer_id rs st1
  let st3 := setBuf st2 overlap_id { bufD st2 overlap_id with gpu_modified := ∅ }
  let st4 := { st3 with downloads := ReplaceBufferDownloads st3.downloads overlap_id new_buffer_id }
  (DeleteBuffer st4 overlap_id, copies)

/-- `OverlapResult` (buffer_cache.h:75-80). -/
structure OverlapResult where
  ids : List BufferId
  begin_ : VAddr
  end_ : VAddr
  has_stream_leap : Bool
deriving DecidableEq

/-- Set a buffer's picked flag (`overlap.Pick()`). -/
def pickBuf (st : CacheState) (i : BufferId) : CacheState :=
  setBuf st i { bufD st i with picked := true }

/-- Pick a list of buffers in order; `ResolveOverlaps` leaves the state with
exactly its returned ids picked. -/
def pickMany (st : CacheState) (ids : List BufferId) : CacheState :=
  ids.foldl pickBuf st

/-- The scan loop of `BufferCache::ResolveOverlaps` (buffer_cache.h:1040-1064)
as a fuel-indexed recursion; `none` means the fuel ran out before the loop
condition failed.  `cursor` is the loop's mutated `cpu_addr`, `b`/`e` the
running `begin`/`end`, `score` the accumulated stream score and `leap` the
`has_stream_leap` flag. -/
def ResolveOverlapsGo (fuel : Nat) (st : CacheState) (cursor b e score : Nat) (leap : Bool)
    (ids : List BufferId) : Option (OverlapResult × CacheState) :=
  if cursor / PAGE_SIZE < divCeil e PAGE_SIZE then
    match fuel with
    | 0 => none
    | fuel' + 1 =>
      if st.page_table (cursor / PAGE_SIZE) = 0 then
        ResolveOverlapsGo fuel' st (cursor + PAGE_SIZE) b e score leap ids
      else if (bufD st (st.page_table (cursor / PAGE_SIZE))).picked then
        ResolveOverlapsGo fuel' st (cursor + PAGE_SIZE) b e score leap ids
      else
        let oid := st.page_table (cursor / PAGE_SIZE)
        let ov := bufD st oid
        let b' := if ov.cpu_addr < b then ov.cpu_addr else b
        let cursor' := if ov.cpu_addr < b then ov.cpu_addr else cursor
        let e1 := max e (ov.cpu_addr + ov.size_bytes)
        let score' := score + ov.stream_score
        let e2 := if !leap && decide (16 < score') then e1 + PAGE_SIZE * 256 else e1
        ResolveOverlapsGo fuel' (pickBuf st oid) (cursor' + PAGE_SIZE) b' e2 score'
          (leap || decide (16 < score')) (ids ++ [oid])
  else some ({ ids := ids, begin_ := b, end_ := e, has_stream_leap := leap }, st)

/-- `BufferCache::ResolveOverlaps` (buffer_cache.h:1031-1071):
`begin = cpu_addr`, `end = cpu_addr + wanted_size`, empty picked set. -/
def ResolveOverlaps (fuel : Nat) (st : CacheState) (cpu_addr wanted_size : Nat) :
    Option (OverlapResult × CacheState) :=
  ResolveOverlapsGo fuel st cpu_addr cpu_addr (cpu_addr + wanted_size) 0 false []

/-- Modelled from the spec: a freshly created buffer spanning
`[begin, begin + size)`; its host data is entirely stale, so the whole
extent starts CPU-modified, nothing is GPU-modified, the stream score is
zero and the buffer is unpicked. -/
def newBuffer (begin_ size : Nat) : Buffer :=
  { cpu_addr := begin_, size_bytes := size, cpu_modified := Finset.Ico 0 size
    gpu_modified := ∅, stream_score := 0, picked := false, alive := true }

/-- The loop of `CreateBuffer` joining every resolved overlap into the new
buffer, each with the same `accumulate` flag. -/
def joinAll (n : BufferId) (acc : Bool) (ids : List BufferId) (st : CacheState) : CacheState :=
  ids.foldl (fun s oid => (JoinOverlap s n oid acc).1) st

/-- `BufferCache::CreateBuffer` (buffer_cache.h:1100-1109): resolve overlaps,
insert a fresh buffer over the coalesced extent (the `SlotVector` insert is
modelled, per the spec, as allocating a fresh slot at the end of the
arena), join every overlap with `accumulate = ¬has_stream_leap`, then
register the new buffer. -/
def CreateBuffer (fuel : Nat) (st : CacheState) (cpu_addr wanted_size : Nat) :
    Option (BufferId × CacheState) :=
  (ResolveOverlaps fuel st cpu_addr wanted_size).map fun r =>
    let size := r.1.end_ - r.1.begin_
    let new_buffer_id := numBuf r.2
    let st2 := { r.2 with slot_buffers := r.2.slot_buffers ++ [newBuffer r.1.begin_ size] }
    let st3 := joinAll new_buffer_id (!r.1.has_stream_leap) r.1.ids st2
    (new_buffer_id, Register new_buffer_id st3)

/-- `BufferCache::FindBuffer` (buffer_cache.h:1014-1029). -/
def FindBuffer (fuel : Nat) (st : CacheState) (cpu_addr : VAddr) (size : Nat) :
    Option (BufferId × CacheState) :=
  if cpu_addr = 0 then some (0, st)
  else
    let buffer_id := st.page_table (cpu_addr / PAGE_SIZE)
    if buffer_id = 0 then CreateBuffer fuel st cpu_addr size
    else if IsInBounds (bufD st buffer_id) cpu_addr size then some (buffer_id, st)
    else CreateBuffer fuel st cpu_addr size

/-- `BufferCache::MarkWrittenBuffer` (buffer_cache.h:997-1012).  The two
`Settings` reads (GPU accuracy high, async GPU emulation) are passed as
parameters; when either is off only the GPU-modified marking happens. -/
def MarkWrittenBuffer (st : CacheState) (buffer_id : BufferId) (cpu_addr size : Nat)
    (is_accuracy_high is_async : Bool) : CacheState :=
  let st1 := setBuf st buffer_id (markRegionAsGpuModified (bufD st buffer_id) cpu_addr size)
  if !is_accuracy_high || !is_async then st1
  else { st1 with downloads := markUncommitted st1.downloads buffer_id }

/-- `BufferCache::SynchronizeBufferImpl` (buffer_cache.h:1147-1166):
enumerate the CPU-modified ranges intersecting the query (the enumeration
clears them from the buffer), accumulate the copy batch (`src_offset` is
the running staging total, `dst_offset` the buffer offset), return `true`
(clean) when the total is zero and `false` (uploaded) otherwise. -/
def SynchronizeBufferImpl (b : Buffer) (cpu_addr : VAddr) (size : Nat) :
    Bool × List BufferCopy × Buffer :=
  let rs := uploadRuns b cpu_addr size
  let copies := (rs.foldl
    (fun (acc : Nat × List BufferCopy) r =>
      (acc.1 + r.2, acc.2 ++ [{ src_offset := acc.1, dst_offset := r.1, size := r.2 }])) (0, [])).2
  let total : Nat := (rs.map fun r => r.2).sum
  let b' := { b with
    cpu_modified := (rs.foldl (fun s r => s \ Finset.Ico r.1 (r.1 + r.2)) b.cpu_modified) }
  if total = 0 then (true, [], b) else (false, copies, b')

/-- `BufferCache::SynchronizeBuffer` (buffer_cache.h:1139-1144): the null
buffer (`CpuAddr() == 0`) is reported clean at once, with no range
enumeration and no upload. -/
def SynchronizeBuffer (b : Buffer) (cpu_addr : VAddr) (size : Nat) :
    Bool × List BufferCopy × Buffer :=
  if b.cpu_addr = 0 then (true, [], b) else SynchronizeBufferImpl b cpu_addr size

/-- The uniform-cache counter update of the classic cached path of
`BindHostGraphicsUniformBuffer` (buffer_cache.h:720-724): on a clean
synchronize increment `uniform_cache_hits[0]`; always increment
`uniform_cache_shots[0]`. -/
def classicPathCounters (b : Buffer) (cpu_addr size hits0 shots0 : Nat) : Nat × Nat :=
  ((if (SynchronizeBuffer b cpu_addr size).1 then hits0 + 1 else hits0), shots0 + 1)

/-- The fast-path eligibility test of `BindHostGraphicsUniformBuffer`
(buffer_cache.h:696-698): `buffer_id != NULL_BUFFER_ID`, `size` at most
`uniform_buffer_skip_cache_size`, and the bound region not GPU-modified.
When it is `false` the bind takes the classic cached path. -/
def useFastBuffer (st : CacheState) (binding : Binding) (skip_cache_size : Nat) : Bool :=
  decide (binding.buffer_id ≠ 0) && decide (binding.size ≤ skip_cache_size) &&
    !isRegionGpuModified (bufD st binding.buffer_id) binding.cpu_addr binding.size

/-- Truncation to a 32-bit unsigned integer. -/
def u32 (n : Nat) : Nat := n % 2 ^ 32

/-- The sliding-window state of the fast-UBO heuristic: the 16-entry
`uniform_cache_hits` and `uniform_cache_shots` windows and
`uniform_buffer_skip_cache_size`. -/
structure FrameCounters where
  hits : List Nat
  shots : List Nat
  skip_cache_size : Nat
deriving DecidableEq

/-- The heuristic part of `BufferCache::TickFrame` (buffer_cache.h:338-353):
sum both 16-entry windows in u32 arithmetic, shift each window right by one
slot (the overlapping `std::copy_n` is modelled with `memmove` semantics,
which is what the shipped standard libraries lower it to), zero slot 0, and
set `skip_cache_size` to `DEFAULT_SKIP_CACHE_SIZE` exactly when
`hits * 256 < shots * 251` in u32 arithmetic and to 0 otherwise. -/
def TickFrame (c : FrameCounters) : FrameCounters :=
  let hits := u32 c.hits.sum
  let shots := u32 c.shots.sum
  { hits := 0 :: c.hits.take 15
    shots := 0 :: c.shots.take 15
    skip_cache_size := if u32 (hits * 256) < u32 (shots * 251) then DEFAULT_SKIP_CACHE_SIZE
      else 0 }

/-- Left end of a buffer's extent, read through the arena. -/
def extentLo (st : CacheState) (i : BufferId) : Nat := (bufD st i).cpu_addr

/-- Right end of a buffer's extent, read through the arena. -/
def extentHi (st : CacheState) (i : BufferId) : Nat :=
  (bufD st i).cpu_addr + (bufD st i).size_bytes

/-- Sum of the stream scores of a list of buffers. -/
def scoreSum (st : CacheState) (ids : List BufferId) : Nat :=
  (ids.map fun i => (bufD st i).stream_score).sum

/-- The natural coalesced end: the maximum of `cpu_addr + wanted_size` and
the extent ends of the picked overlaps, before any stream-leap widening. -/
def natEnd (st : CacheState) (base : Nat) (ids : List BufferId) : Nat :=
  ids.foldr (fun i m => max (extentHi st i) m) base

/-- A state with one live 16-byte buffer at guest address 70000 in slot 1,
nothing GPU-modified. -/
def c5state : CacheState :=
  { slot_buffers := [nullBuffer,
      { cpu_addr := 70000, size_bytes := 16, cpu_modified := ∅, gpu_modified := ∅
        stream_score := 0, picked := false, alive := true }]
    page_table := fun _ => 0, downloads := ⟨[], []⟩ }

/-- Slot 1: the containing buffer `[100, 150)`, freshly created (entirely
CPU-modified).  Slot 2: the overlapped buffer `[120, 130)` with GPU-modified
byte offsets 0..2 (guest bytes 120..122). -/
def c7state : CacheState :=
  { slot_buffers := [nullBuffer,
      { cpu_addr := 100, size_bytes := 50, cpu_modified := Finset.Ico 0 50, gpu_modified := ∅
        stream_score := 0, picked := false, alive := true },
      { cpu_addr := 120, size_bytes := 10, cpu_modified := ∅, gpu_modified := {0, 1, 2}
        stream_score := 0, picked := false, alive := true }]
    page_table := fun _ => 0, downloads := ⟨[], []⟩ }

/-! ## Helper lemmas: download-queue duplicate freedom -/

theorem count_dedupFirst_self (a : BufferId) : ∀ l : List BufferId, (dedupFirst a l).count a ≤ 1 := by
  intro l
  induction l with
  | nil => simp [dedupFirst]
  | cons y ys ih =>
    by_cases hy : y = a
    · have hnot : a ∉ ys.filter (fun z => decide (z ≠ a)) := by
        intro hmem
        have := List.of_mem_filter hmem
        simp at this
      rw [show dedupFirst a (y :: ys) = y :: ys.filter (fun z => decide (z ≠ a)) from by
        simp [dedupFirst, hy]]
      rw [hy, List.count_cons_self, List.count_eq_zero.mpr hnot]
    · have hya : a ≠ y := fun h => hy h.symm
      rw [show dedupFirst a (y :: ys) = y :: dedupFirst a ys from by simp [dedupFirst, hy]]
      rw [List.count_cons_of_ne hya]
      exact ih

theorem count_dedupFirst_le (a x : BufferId) :
    ∀ l : List BufferId, (dedupFirst a l).count x ≤ l.count x := by
  intro l
  induction l with
  | nil => simp [dedupFirst]
  | cons y ys ih =>
    by_cases hy : y = a
    · have hsub : (ys.filter (fun z => decide (z ≠ a))).count x ≤ ys.count x :=
        (List.filter_sublist ys).count_le x
      rw [show dedupFirst a (y :: ys) = y :: ys.filter (fun z => decide (z ≠ a)) from by
        simp [dedupFirst, hy]]
      simp only [List.count_cons]
      omega
    · rw [show dedupFirst a (y :: ys) = y :: dedupFirst a ys from by simp [dedupFirst, hy]]
      simp only [List.count_cons]
      omega

theorem count_map_replace_le (old new x : BufferId) (hx : x ≠ new) :
    ∀ l : List BufferId, ((l.map fun y => if y = old then new else y).count x) ≤ l.count x := by
  intro l
  induction l with
  | nil => simp
  | cons y ys ih =>
    rw [List.map_cons]
    by_cases hy : y = old
    · rw [if_pos hy, List.count_cons_of_ne hx]
      exact le_trans ih (List.count_le_count_cons x y ys)
    · rw [if_neg hy]
      simp only [List.count_cons]
      omega

theorem count_replaceList_self (old new : BufferId) (l : List BufferId) :
    (replaceList old new l).count new ≤ 1 :=
  count_dedupFirst_self new _

theorem nodup_replaceList (old new : BufferId) {l : List BufferId} (h : l.Nodup) :
    (replaceList old new l).Nodup := by
  rw [List.nodup_iff_count_le_one] at h ⊢
  intro x
  by_cases hx : x = new
  · exact hx ▸ count_replaceList_self old new l
  · calc (replaceList old new l).count x
        ≤ ((l.map fun y => if y = old then new else y).count x) := count_dedupFirst_le new x _
      _ ≤ l.count x := count_map_replace_le old new x hx l
      _ ≤ 1 := h x

theorem nodupQ_mark (q : DownloadQueues) (id : BufferId) (h : NodupQ q) :
    NodupQ (markUncommitted q id) := by
  obtain ⟨hu, hc⟩ := h
  by_cases hm : id ∈ q.uncommitted
  · simpa [markUncommitted, hm] using ⟨hu, hc⟩
  · rw [markUncommitted, if_neg hm]
    refine ⟨?_, hc⟩
    rw [List.nodup_append]
    exact ⟨hu, List.nodup_singleton id, by simpa [List.disjoint_singleton] using hm⟩

theorem nodupQ_commit (q : DownloadQueues) (h : NodupQ q) : NodupQ (CommitAsyncFlushes q) := by
  obtain ⟨hu, hc⟩ := h
  refine ⟨List.nodup_nil, ?_⟩
  intro l hl
  rcases List.mem_cons.mp hl with rfl | hl
  · exact hu
  · exact hc l hl

theorem nodupQ_pop (q : DownloadQueues) (h : NodupQ q) : NodupQ (PopAsyncFlushes q) := by
  obtain ⟨hu, hc⟩ := h
  by_cases he : q.committed.isEmpty
  · simpa [PopAsyncFlushes, he] using ⟨hu, hc⟩
  · rw [PopAsyncFlushes, if_neg he]
    refine ⟨hu, ?_⟩
    intro l hl
    exact hc l (q.committed.dropLast_sublist.subset hl)

theorem nodupQ_replace (q : DownloadQueues) (old new : BufferId) (h : NodupQ q) :
    NodupQ (ReplaceBufferDownloads q old new) := by
  obtain ⟨hu, hc⟩ := h
  refine ⟨nodup_replaceList old new hu, ?_⟩
  intro l hl
  simp only [ReplaceBufferDownloads, List.mem_map] at hl
  obtain ⟨l0, hl0, rfl⟩ := hl
  exact nodup_replaceList old new (hc l0 hl0)

theorem nodupQ_dStep (q : DownloadQueues) (op : DOp) (h : NodupQ q) : NodupQ (dStep q op) := by
  cases op with
  | mark id => exact nodupQ_mark q id h
  | commit => exact nodupQ_commit q h
  | pop => exact nodupQ_pop q h
  | replace old new => exact nodupQ_replace q old new h

theorem nodupQ_dRun (q : DownloadQueues) (ops : List DOp) (h : NodupQ q) :
    NodupQ (dRun q ops) := by
  induction ops generalizing q with
  | nil => exact h
  | cons op ops ih => exact ih (dStep q op) (nodupQ_dStep q op h)

/-! ## Claim theorems: C1, C2, C3, C5, C7, C9, C10 -/

/-- C1 counterexample: with both windows summing to 1, the claim's condition
`hits * 256 ≥ shots * 251` holds, so the claim requires
`skip_cache_size = 4096`; the code (buffer_cache.h:349-350) sets it to 0,
because it assigns 4096 exactly when `hits * 256 < shots * 251`. -/
theorem C1_counterexample :
    (TickFrame ⟨1 :: List.replicate 15 0, 1 :: List.replicate 15 0, 4096⟩).skip_cache_size = 0 ∧
    u32 (1 :: List.replicate 15 0 : List Nat).sum * 256 ≥
      u32 (1 :: List.replicate 15 0 : List Nat).sum * 251 := by
  constructor
  · rfl
  · decide

/-- C1 (amended): at every `TickFrame`, with `hits`/`shots` the u32 sums of
the 16-entry windows taken before shifting, `skip_cache_size` becomes 4096
exactly when `hits * 256 < shots * 251` (u32 arithmetic) and 0 otherwise;
both windows are shifted right by one slot and slot 0 of each is zeroed. -/
theorem C1_tick_frame_amended : ∀ c : FrameCounters,
    ((TickFrame c).skip_cache_size = DEFAULT_SKIP_CACHE_SIZE ↔
      u32 (u32 c.hits.sum * 256) < u32 (u32 c.shots.sum * 251)) ∧
    ((TickFrame c).skip_cache_size = 0 ↔
      ¬ u32 (u32 c.hits.sum * 256) < u32 (u32 c.shots.sum * 251)) ∧
    (TickFrame c).hits = 0 :: c.hits.take 15 ∧
    (TickFrame c).shots = 0 :: c.shots.take 15 := by
  intro c
  by_cases h : u32 (u32 c.hits.sum * 256) < u32 (u32 c.shots.sum * 251) <;>
    simp [TickFrame, h, DEFAULT_SKIP_CACHE_SIZE]

/-- C2 counterexample: after `mark 1; commit; commit` the committed deque is
`[[], [1]]` — the front (newest) list is empty while the back (oldest)
list, the one the next `PopAsyncFlushes` drains, is `[1]`, non-empty.  The
claim demands `ShouldWaitAsyncFlushes = true`; the code returns `false`
because it inspects the front. -/
theorem C2_counterexample :
    ShouldWaitAsyncFlushes (dRun ⟨[], []⟩ [DOp.mark 1, DOp.commit, DOp.commit]) = false ∧
    (dRun ⟨[], []⟩ [DOp.mark 1, DOp.commit, DOp.commit]).committed.getLast? = some [1] ∧
    (dRun ⟨[], []⟩ [DOp.mark 1, DOp.commit, DOp.commit, DOp.pop]).committed = [[]] := by
  decide

/-- C2 (amended): `ShouldWaitAsyncFlushes` returns true iff the NEWEST
committed list — the deque front, pushed by the most recent
`CommitAsyncFlushes` — exists and is non-empty (`PopAsyncFlushes` drains
the back, i.e. the oldest list); equivalently, immediately after a commit
it is true iff the list just committed was non-empty. -/
theorem C2_should_wait_amended :
    (∀ q : DownloadQueues,
      ShouldWaitAsyncFlushes q = true ↔ ∃ h t, q.committed = h :: t ∧ h ≠ []) ∧
    (∀ q : DownloadQueues,
      ShouldWaitAsyncFlushes (CommitAsyncFlushes q) = !q.uncommitted.isEmpty) := by
  constructor
  · intro q
    cases hq : q.committed with
    | nil => simp [ShouldWaitAsyncFlushes, hq]
    | cons h t =>
      cases h with
      | nil => simp [ShouldWaitAsyncFlushes, hq]
      | cons x xs =>
        simp only [ShouldWaitAsyncFlushes, hq]
        constructor
        · intro _
          exact ⟨x :: xs, t, rfl, by simp⟩
        · intro _
          simp
  · intro q
    cases hu : q.uncommitted with
    | nil => simp [ShouldWaitAsyncFlushes, CommitAsyncFlushes, hu]
    | cons x xs => simp [ShouldWaitAsyncFlushes, CommitAsyncFlushes, hu]

/-- C3: the code is wrong and the claim (spec section 7) is right.  When
`GpuToCpuAddress` returns no mapping, `BindGraphicsUniformBuffer`
dereferences the empty `std::optional` (undefined behaviour, modelled as
`none`) instead of resetting the binding to `NULL_BINDING` the way every
other binding-update path in the file does. -/
theorem C3_unmapped_ubo_bug : ∀ size : Nat,
    BindGraphicsUniformBuffer none size = none ∧
    BindGraphicsUniformBuffer none size ≠ some NULL_BINDING := by
  intro size
  exact ⟨rfl, by simp [BindGraphicsUniformBuffer]⟩

/-- C5 counterexample: with `skip_cache_size = 0`, a size-0 binding whose
resolved buffer id is non-null and whose region is not GPU-modified still
satisfies the fast-path eligibility test (`size ≤ 0` holds for size 0), so
the bind does NOT take the classic cached path. -/
theorem C5_counterexample :
    useFastBuffer c5state { cpu_addr := 70000, size := 0, buffer_id := 1 } 0 = true := by
  decide

/-- C5 (amended): `skip_cache_size = 0` disables the fast UBO path for every
binding of non-zero size; a size-0 binding with a non-null buffer id whose
region is not GPU-modified still takes the fast path. -/
theorem C5_skip_zero_amended : ∀ (st : CacheState) (binding : Binding),
    0 < binding.size → useFastBuffer st binding 0 = false := by
  intro st binding h
  have hle : ¬ binding.size ≤ 0 := by omega
  simp [useFastBuffer, hle]

/-- C5 amended-theorem witness at a concrete non-zero size. -/
theorem C5_witness :
    0 < (5 : Nat) ∧
    useFastBuffer c5state { cpu_addr := 70000, size := 5, buffer_id := 1 } 0 = false :=
  ⟨by decide, C5_skip_zero_amended c5state { cpu_addr := 70000, size := 5, buffer_id := 1 }
    (by decide)⟩

/-- C7: the code is wrong and the claim (spec invariant 6 / section 4.F) is
right.  `JoinOverlap` enqueues the host copy at the claimed destination
offset `(old.cpu_addr - new.cpu_addr) + range_offset = 20`, but it passes
the overlap-relative offsets to `UnmarkRegionAsCpuModified` and
`MarkRegionAsGpuModified` on the new buffer, which take absolute guest
addresses; the clamped range is empty, so the migrated range is neither
marked GPU-modified nor unmarked CPU-modified in the new buffer. -/
theorem C7_join_overlap_bug :
    (bufD c7state 1).cpu_addr ≤ (bufD c7state 2).cpu_addr ∧
    (bufD c7state 2).cpu_addr + (bufD c7state 2).size_bytes ≤
      (bufD c7state 1).cpu_addr + (bufD c7state 1).size_bytes ∧
    0 ∈ (bufD c7state 2).gpu_modified ∧
    ((JoinOverlap c7state 1 2 true).2.map fun c => (c.src_offset, c.dst_offset, c.size)) =
      [(0, 20, 3)] ∧
    (bufD (JoinOverlap c7state 1 2 true).1 1).gpu_modified = ∅ ∧
    20 ∈ (bufD (JoinOverlap c7state 1 2 true).1 1).cpu_modified := by
  decide

/-- C9: the download queues never hold duplicate ids — `NodupQ` is preserved
by every sequence of the public operations that touch them
(`MarkWrittenBuffer`'s conditional append, `CommitAsyncFlushes`,
`PopAsyncFlushes`, `ReplaceBufferDownloads`), and `replaceList` leaves the
new id at most once in any list unconditionally. -/
theorem C9_no_duplicate_downloads :
    (∀ (q : DownloadQueues) (ops : List DOp), NodupQ q → NodupQ (dRun q ops)) ∧
    (∀ (old new : BufferId) (l : List BufferId), (replaceList old new l).count new ≤ 1) :=
  ⟨nodupQ_dRun, fun old new l => count_replaceList_self old new l⟩

/-- C9 witness: a concrete operation sequence exercising mark-dedup, commit,
relink and pop, starting from the empty (duplicate-free) queues. -/
theorem C9_witness :
    NodupQ ({ uncommitted := [], committed := [] } : DownloadQueues) ∧
    NodupQ (dRun { uncommitted := [], committed := [] }
      [DOp.mark 1, DOp.mark 1, DOp.commit, DOp.replace 1 2, DOp.pop]) ∧
    (replaceList 1 2 [3, 1, 2]).count 2 ≤ 1 := by
  refine ⟨⟨List.nodup_nil, by simp⟩, ?_, C9_no_duplicate_downloads.2 1 2 [3, 1, 2]⟩
  exact C9_no_duplicate_downloads.1 _ _ ⟨List.nodup_nil, by simp⟩

/-- C10: `SynchronizeBuffer` on a buffer whose `CpuAddr()` is 0 (the null
buffer) returns true at once — no upload ranges are enumerated, no copies
are produced, the buffer is untouched — and the classic uniform path
therefore counts a hit and a shot. -/
theorem C10_null_buffer_sync : ∀ (b : Buffer) (cpu_addr size hits0 shots0 : Nat),
    b.cpu_addr = 0 →
    SynchronizeBuffer b cpu_addr size = (true, [], b) ∧
    classicPathCounters b cpu_addr size hits0 shots0 = (hits0 + 1, shots0 + 1) := by
  intro b cpu_addr size hits0 shots0 h
  constructor
  · simp [SynchronizeBuffer, h]
  · simp [classicPathCounters, SynchronizeBuffer, h]

/-- C10 witness: the null buffer itself. -/
theorem C10_witness :
    nullBuffer.cpu_addr = 0 ∧
    SynchronizeBuffer nullBuffer 10 64 = (true, [], nullBuffer) ∧
    classicPathCounters nullBuffer 10 64 3 5 = (4, 6) :=
  ⟨rfl, (C10_null_buffer_sync nullBuffer 10 64 3 5 rfl).1,
    (C10_null_buffer_sync nullBuffer 10 64 3 5 rfl).2⟩

/-! ## Helper lemmas: slot updates and the picked flag -/

theorem numBuf_setBuf (st : CacheState) (i : BufferId) (b : Buffer) :
    numBuf (setBuf st i b) = numBuf st :=
  List.length_set st.slot_buffers i b

theorem page_table_setBuf (st : CacheState) (i : BufferId) (b : Buffer) :
    (setBuf st i b).page_table = st.page_table := rfl

theorem downloads_setBuf (st : CacheState) (i : BufferId) (b : Buffer) :
    (setBuf st i b).downloads = st.downloads := rfl

theorem bufD_setBuf_self (st : CacheState) (i : BufferId) (b : Buffer) :
    bufD (setBuf st i b) i = if i < numBuf st then b else bufD st i := by
  by_cases h : i < numBuf st
  · rw [if_pos h]
    have h' : i < st.slot_buffers.length := h
    unfold bufD setBuf
    simp [List.getD_eq_getElem?_getD, List.getElem?_set_self, h']
  · rw [if_neg h]
    unfold bufD setBuf
    rw [List.set_eq_of_length_le (Nat.le_of_not_lt h)]

theorem bufD_setBuf_eq (st : CacheState) (i : BufferId) (b : Buffer) (h : i < numBuf st) :
    bufD (setBuf st i b) i = b := by
  rw [bufD_setBuf_self, if_pos h]

theorem bufD_setBuf_ne (st : CacheState) (i j : BufferId) (b : Buffer) (h : j ≠ i) :
    bufD (setBuf st i b) j = bufD st j := by
  unfold bufD setBuf
  simp [List.getD_eq_getElem?_getD, List.getElem?_set_ne (fun hh => h hh.symm)]

theorem numBuf_pickBuf (st : CacheState) (i : BufferId) : numBuf (pickBuf st i) = numBuf st :=
  numBuf_setBuf st i _

theorem page_table_pickBuf (st : CacheState) (i : BufferId) :
    (pickBuf st i).page_table = st.page_table := rfl

theorem bufD_pickBuf (st : CacheState) (i j : BufferId) :
    bufD (pickBuf st i) j =
      if j = i ∧ i < numBuf st then { bufD st j with picked := true } else bufD st j := by
  by_cases hj : j = i
  · subst hj
    rw [pickBuf, bufD_setBuf_self]
    by_cases hlt : j < numBuf st
    · simp [hlt]
    · simp [hlt]
  · rw [pickBuf, bufD_setBuf_ne st i j _ hj]
    simp [hj]

theorem pickMany_cons (st : CacheState) (i : BufferId) (ids : List BufferId) :
    pickMany st (i :: ids) = pickMany (pickBuf st i) ids := rfl

theorem pickMany_append_single (st : CacheState) (ids : List BufferId) (i : BufferId) :
    pickMany st (ids ++ [i]) = pickBuf (pickMany st ids) i := by
  unfold pickMany
  rw [List.foldl_append]
  rfl

theorem numBuf_pickMany (st : CacheState) (ids : List BufferId) :
    numBuf (pickMany st ids) = numBuf st := by
  induction ids generalizing st with
  | nil => rfl
  | cons i ids ih => rw [pickMany_cons, ih, numBuf_pickBuf]

theorem page_table_pickMany (st : CacheState) (ids : List BufferId) :
    (pickMany st ids).page_table = st.page_table := by
  induction ids generalizing st with
  | nil => rfl
  | cons i ids ih => rw [pickMany_cons, ih, page_table_pickBuf]

theorem downloads_pickMany (st : CacheState) (ids : List BufferId) :
    (pickMany st ids).downloads = st.downloads := by
  induction ids generalizing st with
  | nil => rfl
  | cons i ids ih =>
    rw [pickMany_cons, ih]
    rfl

theorem bufD_pickMany (st : CacheState) (ids : List BufferId) (j : BufferId) :
    bufD (pickMany st ids) j =
      if j ∈ ids ∧ j < numBuf st then { bufD st j with picked := true } else bufD st j := by
  induction ids generalizing st with
  | nil => simp [pickMany]
  | cons i ids ih =>
    rw [pickMany_cons, ih, numBuf_pickBuf, bufD_pickBuf]
    by_cases hlt : j < numBuf st
    · by_cases hji : j = i
      · subst hji
        by_cases hmem : j ∈ ids <;> simp [hmem, hlt]
      · by_cases hmem : j ∈ ids <;> simp [hmem, hlt, hji]
    · have hni : ¬ (j = i ∧ i < numBuf st) := by
        rintro ⟨rfl, hh⟩
        exact hlt hh
      simp [hlt, hni]

/-- The fields other than `picked` are untouched by picking. -/
theorem bufD_pickMany_fields (st : CacheState) (ids : List BufferId) (j : BufferId) :
    (bufD (pickMany st ids) j).cpu_addr = (bufD st j).cpu_addr ∧
    (bufD (pickMany st ids) j).size_bytes = (bufD st j).size_bytes ∧
    (bufD (pickMany st ids) j).alive = (bufD st j).alive ∧
    (bufD (pickMany st ids) j).stream_score = (bufD st j).stream_score := by
  rw [bufD_pickMany]
  by_cases h : j ∈ ids ∧ j < numBuf st <;> simp [h]

theorem bufD_pickMany_picked (st : CacheState) (ids : List BufferId) (j : BufferId) :
    (bufD (pickMany st ids) j).picked =
      ((bufD st j).picked || decide (j ∈ ids ∧ j < numBuf st)) := by
  rw [bufD_pickMany]
  by_cases h : j ∈ ids ∧ j < numBuf st <;> simp [h]

theorem Live_pickMany (st : CacheState) (ids : List BufferId) (j : BufferId) :
    Live (pickMany st ids) j ↔ Live st j := by
  unfold Live
  rw [numBuf_pickMany, (bufD_pickMany_fields st ids j).2.2.1]

/-! ## Helper lemmas: page arithmetic, extents, scores -/

theorem PAGE_SIZE_pos : 0 < PAGE_SIZE := by
  norm_num [PAGE_SIZE]

theorem page_succ (c : Nat) : (c + PAGE_SIZE) / PAGE_SIZE = c / PAGE_SIZE + 1 :=
  Nat.add_div_right c PAGE_SIZE_pos

theorem divCeil_mono {a b : Nat} (c : Nat) (h : a ≤ b) : divCeil a c ≤ divCeil b c :=
  Nat.div_le_div_right (by omega)

theorem scoreSum_append (st : CacheState) (ids : List BufferId) (x : BufferId) :
    scoreSum st (ids ++ [x]) = scoreSum st ids + (bufD st x).stream_score := by
  simp [scoreSum]

theorem natEnd_cons (st : CacheState) (base : Nat) (i : BufferId) (ids : List BufferId) :
    natEnd st base (i :: ids) = max (extentHi st i) (natEnd st base ids) := rfl

theorem natEnd_append (st : CacheState) (base : Nat) (ids : List BufferId) (x : BufferId) :
    natEnd st base (ids ++ [x]) = max (extentHi st x) (natEnd st base ids) := by
  induction ids with
  | nil => rfl
  | cons i ids ih =>
    rw [List.cons_append, natEnd_cons, ih, natEnd_cons, Nat.max_left_comm]

theorem natEnd_base_le (st : CacheState) (base : Nat) (ids : List BufferId) :
    base ≤ natEnd st base ids := by
  induction ids with
  | nil => exact le_refl base
  | cons i ids ih => exact le_trans ih (le_max_right _ _)

theorem natEnd_mem_le (st : CacheState) (base : Nat) {ids : List BufferId} {i : BufferId}
    (h : i ∈ ids) : extentHi st i ≤ natEnd st base ids := by
  induction ids with
  | nil => cases h
  | cons j ids ih =>
    rw [natEnd_cons]
    rcases List.mem_cons.mp h with rfl | h
    · exact le_max_left _ _
    · exact le_trans (ih h) (le_max_right _ _)

theorem natEnd_congr {st st' : CacheState} (base : Nat) {ids : List BufferId}
    (h : ∀ i ∈ ids, extentHi st' i = extentHi st i) :
    natEnd st' base ids = natEnd st base ids := by
  induction ids with
  | nil => rfl
  | cons i ids ih =>
    rw [natEnd_cons, natEnd_cons, h i (List.mem_cons_self i ids),
      ih (fun j hj => h j (List.mem_cons_of_mem i hj))]

theorem scoreSum_congr {st st' : CacheState} {ids : List BufferId}
    (h : ∀ i ∈ ids, (bufD st' i).stream_score = (bufD st i).stream_score) :
    scoreSum st' ids = scoreSum st ids := by
  unfold scoreSum
  induction ids with
  | nil => rfl
  | cons i ids ih =>
    simp only [List.map_cons, List.sum_cons]
    rw [h i (List.mem_cons_self i ids), ih (fun j hj => h j (List.mem_cons_of_mem i hj))]

/-- A buffer whose extent lies inside `[B, E)` has all its pages inside
the page range of `[B, E)`. -/
theorem coversPage_within {b : Buffer} {B E p : Nat}
    (hlo : B ≤ b.cpu_addr) (hhi : b.cpu_addr + b.size_bytes ≤ E)
    (hcov : coversPage b p) : B / PAGE_SIZE ≤ p ∧ p < divCeil E PAGE_SIZE := by
  obtain ⟨h1, h2⟩ := hcov
  constructor
  · exact le_trans (Nat.div_le_div_right hlo) h1
  · exact lt_of_lt_of_le h2 (divCeil_mono PAGE_SIZE hhi)

/-! ## The resolve-loop master lemma -/

/-- Everything the scan loop of `ResolveOverlaps` guarantees, proved by one
induction on the fuel.  The loop is invoked on `pickMany st0 ids` — the
pristine state with exactly the already-collected ids picked — and the
hypotheses are the loop invariant; the conclusions restate it for the final
result. -/
theorem resolveGo_spec :
    ∀ (fuel : Nat) (st0 : CacheState) (cursor b e score : Nat) (leap : Bool)
      (ids : List BufferId) (base : Nat) (r : OverlapResult) (st' : CacheState),
      WF st0 →
      ResolveOverlapsGo fuel (pickMany st0 ids) cursor b e score leap ids = some (r, st') →
      (∀ i ∈ ids, Live st0 i) →
      ids.Nodup →
      b ≤ cursor →
      (∀ i ∈ ids, b ≤ extentLo st0 i ∧ extentHi st0 i ≤ e) →
      (∀ p, b / PAGE_SIZE ≤ p → p < cursor / PAGE_SIZE →
        st0.page_table p = 0 ∨ st0.page_table p ∈ ids) →
      (leap = true ↔ 16 < score) →
      score = scoreSum st0 ids →
      (leap = false → e = natEnd st0 base ids) →
      natEnd st0 base ids ≤ e →
      e ≤ natEnd st0 base ids + PAGE_SIZE * 256 →
      (st' = pickMany st0 r.ids ∧
       (∀ i ∈ r.ids, Live st0 i) ∧
       r.ids.Nodup ∧
       r.begin_ ≤ b ∧ e ≤ r.end_ ∧
       (∀ i ∈ r.ids, r.begin_ ≤ extentLo st0 i ∧ extentHi st0 i ≤ r.end_) ∧
       (∀ p, r.begin_ / PAGE_SIZE ≤ p → p < divCeil r.end_ PAGE_SIZE →
         st0.page_table p = 0 ∨ st0.page_table p ∈ r.ids) ∧
       (r.has_stream_leap = true ↔ 16 < scoreSum st0 r.ids) ∧
       (r.has_stream_leap = false → r.end_ = natEnd st0 base r.ids) ∧
       natEnd st0 base r.ids ≤ r.end_ ∧
       r.end_ ≤ natEnd st0 base r.ids + PAGE_SIZE * 256) := by
  intro fuel
  induction fuel with
  | zero =>
    intro st0 cursor b e score leap ids base r st' hWF hres hlive hnodup hbc hext hcov hliff
      hscore hnat hnlo hnhi
    rw [ResolveOverlapsGo] at hres
    by_cases hcond : cursor / PAGE_SIZE < divCeil e PAGE_SIZE
    · rw [if_pos hcond] at hres
      exact absurd hres (by simp)
    · rw [if_neg hcond] at hres
      rw [Option.some.injEq, Prod.mk.injEq] at hres
      obtain ⟨hr, hst⟩ := hres
      subst hst
      subst hr
      refine ⟨rfl, hlive, hnodup, le_refl b, le_refl e, hext, ?_, ?_, hnat, hnlo, hnhi⟩
      · intro p hp1 hp2
        exact hcov p hp1 (lt_of_lt_of_le hp2 (Nat.le_of_not_lt hcond))
      · rw [← hscore]
        exact hliff
  | succ fuel ih =>
    intro st0 cursor b e score leap ids base r st' hWF hres hlive hnodup hbc hext hcov hliff
      hscore hnat hnlo hnhi
    rw [ResolveOverlapsGo] at hres
    by_cases hcond : cursor / PAGE_SIZE < divCeil e PAGE_SIZE
    swap
    · rw [if_neg hcond] at hres
      rw [Option.some.injEq, Prod.mk.injEq] at hres
      obtain ⟨hr, hst⟩ := hres
      subst hst
      subst hr
      refine ⟨rfl, hlive, hnodup, le_refl b, le_refl e, hext, ?_, ?_, hnat, hnlo, hnhi⟩
      · intro p hp1 hp2
        exact hcov p hp1 (lt_of_lt_of_le hp2 (Nat.le_of_not_lt hcond))
      · rw [← hscore]
        exact hliff
    rw [if_pos hcond] at hres
    obtain ⟨hn1, hInv, hVE, hNP⟩ := hWF
    have hpt : (pickMany st0 ids).page_table = st0.page_table := page_table_pickMany st0 ids
    by_cases h0 : (pickMany st0 ids).page_table (cursor / PAGE_SIZE) = 0
    · rw [if_pos h0] at hres
      refine ih st0 (cursor + PAGE_SIZE) b e score leap ids base r st' ⟨hn1, hInv, hVE, hNP⟩
        hres hlive hnodup (le_trans hbc (Nat.le_add_right _ _)) hext ?_ hliff hscore hnat
        hnlo hnhi
      intro p hp1 hp2
      rw [page_succ] at hp2
      rcases Nat.lt_succ_iff_lt_or_eq.mp hp2 with hp2' | hp2'
      · exact hcov p hp1 hp2'
      · subst hp2'
        rw [hpt] at h0
        exact Or.inl h0
    rw [if_neg h0] at hres
    -- facts about the buffer found at the examined page
    set oid := (pickMany st0 ids).page_table (cursor / PAGE_SIZE) with hoid_def
    have hoid0 : oid ≠ 0 := h0
    have hoid_st0 : st0.page_table (cursor / PAGE_SIZE) = oid := by rw [← hpt]
    have hlive_oid : Live st0 oid := by
      rcases hVE (cursor / PAGE_SIZE) with h | h
      · exact absurd (hoid_st0 ▸ h) hoid0
      · exact hoid_st0 ▸ h
    have hcov_oid : coversPage (bufD st0 oid) (cursor / PAGE_SIZE) :=
      (hInv oid hlive_oid (cursor / PAGE_SIZE)).mpr hoid_st0
    have hov_cpu : (bufD (pickMany st0 ids) oid).cpu_addr = (bufD st0 oid).cpu_addr :=
      (bufD_pickMany_fields st0 ids oid).1
    have hov_size : (bufD (pickMany st0 ids) oid).size_bytes = (bufD st0 oid).size_bytes :=
      (bufD_pickMany_fields st0 ids oid).2.1
    have hov_score : (bufD (pickMany st0 ids) oid).stream_score = (bufD st0 oid).stream_score :=
      (bufD_pickMany_fields st0 ids oid).2.2.2
    by_cases hpicked : (bufD (pickMany st0 ids) oid).picked = true
    · -- already picked: skip the page
      rw [if_pos hpicked] at hres
      have hmem_oid : oid ∈ ids := by
        rw [bufD_pickMany_picked, hNP oid hlive_oid, Bool.false_or, decide_eq_true_eq] at hpicked
        exact hpicked.1
      refine ih st0 (cursor + PAGE_SIZE) b e score leap ids base r st' ⟨hn1, hInv, hVE, hNP⟩
        hres hlive hnodup (le_trans hbc (Nat.le_add_right _ _)) hext ?_ hliff hscore hnat
        hnlo hnhi
      intro p hp1 hp2
      rw [page_succ] at hp2
      rcases Nat.lt_succ_iff_lt_or_eq.mp hp2 with hp2' | hp2'
      · exact hcov p hp1 hp2'
      · subst hp2'
        exact Or.inr (hoid_st0 ▸ hmem_oid)
    · -- a fresh overlap: pick it
      rw [if_neg hpicked] at hres
      dsimp only at hres
      rw [hov_cpu, hov_size, hov_score] at hres
      have hnotmem : oid ∉ ids := by
        intro hmem
        apply hpicked
        rw [bufD_pickMany_picked, hNP oid hlive_oid, Bool.false_or, decide_eq_true_eq]
        exact ⟨hmem, hlive_oid.2.1⟩
      have hpick_eq : pickBuf (pickMany st0 ids) oid = pickMany st0 (ids ++ [oid]) :=
        (pickMany_append_single st0 ids oid).symm
      rw [hpick_eq] at hres
      -- abbreviations for the stepped loop arguments
      set ovc := (bufD st0 oid).cpu_addr with hovc_def
      set hi0 := extentHi st0 oid with hhi0_def
      have hhi0_eq : ovc + (bufD st0 oid).size_bytes = hi0 := rfl
      rw [hhi0_eq] at hres
      set sc2 := score + (bufD st0 oid).stream_score with hsc2_def
      set b2 := if ovc < b then ovc else b with hb2_def
      set cur2 := if ovc < b then ovc else cursor with hcur2_def
      set leap2 := (leap || decide (16 < sc2)) with hleap2_def
      set e2 := if (!leap && decide (16 < sc2)) = true then max e hi0 + PAGE_SIZE * 256
        else max e hi0 with he2_def
      clear_value oid ovc hi0 sc2 b2 cur2 leap2 e2
      have hlo_oid : extentLo st0 oid = ovc := hovc_def.symm
      have hhi_oid : extentHi st0 oid = hi0 := hhi0_def.symm
      -- basic facts about the stepped arguments
      have hb2_le_b : b2 ≤ b := by
        rcases Nat.lt_or_ge ovc b with hc | hc
        · rw [hb2_def, if_pos hc]
          exact le_of_lt hc
        · rw [hb2_def, if_neg (Nat.not_lt.mpr hc)]
      have hb2_le_ovc : b2 ≤ ovc := by
        rcases Nat.lt_or_ge ovc b with hc | hc
        · rw [hb2_def, if_pos hc]
        · rw [hb2_def, if_neg (Nat.not_lt.mpr hc)]
          exact hc
      have hb2_cur2 : b2 ≤ cur2 := by
        rcases Nat.lt_or_ge ovc b with hc | hc
        · rw [hb2_def, hcur2_def, if_pos hc, if_pos hc]
        · rw [hb2_def, hcur2_def, if_neg (Nat.not_lt.mpr hc), if_neg (Nat.not_lt.mpr hc)]
          exact hbc
      have hmax_le_e2 : max e hi0 ≤ e2 := by
        by_cases ht : (!leap && decide (16 < sc2)) = true
        · rw [he2_def, if_pos ht]
          exact Nat.le_add_right _ _
        · rw [he2_def, if_neg ht]
      have he_le_e2 : e ≤ e2 := le_trans (le_max_left e hi0) hmax_le_e2
      have hhi0_le_e2 : hi0 ≤ e2 := le_trans (le_max_right e hi0) hmax_le_e2
      -- the invariant at the stepped arguments
      have hlive' : ∀ i ∈ ids ++ [oid], Live st0 i := by
        intro i hi
        rcases List.mem_append.mp hi with hi | hi
        · exact hlive i hi
        · rw [List.mem_singleton.mp hi]
          exact hlive_oid
      have hnodup' : (ids ++ [oid]).Nodup := by
        rw [List.nodup_append]
        exact ⟨hnodup, List.nodup_singleton oid, by simpa [List.disjoint_singleton] using hnotmem⟩
      have hbc' : b2 ≤ cur2 + PAGE_SIZE := le_trans hb2_cur2 (Nat.le_add_right _ _)
      have hext' : ∀ i ∈ ids ++ [oid], b2 ≤ extentLo st0 i ∧ extentHi st0 i ≤ e2 := by
        intro i hi
        rcases List.mem_append.mp hi with hi | hi
        · obtain ⟨ha, hb3⟩ := hext i hi
          exact ⟨le_trans hb2_le_b ha, le_trans hb3 he_le_e2⟩
        · rw [List.mem_singleton.mp hi]
          rw [hlo_oid, hhi_oid]
          exact ⟨hb2_le_ovc, hhi0_le_e2⟩
      have hcov' : ∀ p, b2 / PAGE_SIZE ≤ p → p < (cur2 + PAGE_SIZE) / PAGE_SIZE →
          st0.page_table p = 0 ∨ st0.page_table p ∈ ids ++ [oid] := by
        intro p hp1 hp2
        rw [page_succ] at hp2
        rcases Nat.lt_or_ge ovc b with hc | hc
        · -- reset: the only page in range is the overlap's first page
          rw [hb2_def, if_pos hc] at hp1
          rw [hcur2_def, if_pos hc] at hp2
          have hp_eq : p = ovc / PAGE_SIZE := Nat.le_antisymm (Nat.lt_succ_iff.mp hp2) hp1
          subst hp_eq
          have hlohi : pagesLo (bufD st0 oid) < pagesHi (bufD st0 oid) :=
            lt_of_le_of_lt hcov_oid.1 hcov_oid.2
          have hfirst : st0.page_table (ovc / PAGE_SIZE) = oid := by
            rw [hovc_def]
            exact (hInv oid hlive_oid _).mp ⟨le_refl _, hlohi⟩
          rw [hfirst]
          exact Or.inr (List.mem_append.mpr (Or.inr (List.mem_singleton.mpr rfl)))
        · -- no reset: the examined page joins the covered range
          rw [hb2_def, if_neg (Nat.not_lt.mpr hc)] at hp1
          rw [hcur2_def, if_neg (Nat.not_lt.mpr hc)] at hp2
          rcases Nat.lt_succ_iff_lt_or_eq.mp hp2 with hp2' | hp2'
          · rcases hcov p hp1 hp2' with h | h
            · exact Or.inl h
            · exact Or.inr (List.mem_append.mpr (Or.inl h))
          · subst hp2'
            rw [hoid_st0]
            exact Or.inr (List.mem_append.mpr (Or.inr (List.mem_singleton.mpr rfl)))
      have hliff' : leap2 = true ↔ 16 < sc2 := by
        by_cases hl : leap = true
        · have h16 : 16 < score := hliff.mp hl
          rw [hleap2_def, hsc2_def]
          simp [hl]
          omega
        · rw [Bool.not_eq_true] at hl
          rw [hleap2_def]
          simp [hl]
      have hscore' : sc2 = scoreSum st0 (ids ++ [oid]) := by
        rw [hsc2_def, scoreSum_append, hscore]
      have hnat_app : natEnd st0 base (ids ++ [oid]) = max hi0 (natEnd st0 base ids) := by
        rw [natEnd_append st0 base ids oid, hhi_oid]
      have hnat' : leap2 = false → e2 = natEnd st0 base (ids ++ [oid]) := by
        intro hl2
        rw [hleap2_def] at hl2
        have hl : leap = false := by
          cases hb : leap with
          | false => rfl
          | true =>
            rw [hb] at hl2
            simp at hl2
        have ht : ¬ 16 < sc2 := by
          rw [hl] at hl2
          simp at hl2
          omega
        have htrig : (!leap && decide (16 < sc2)) = false := by
          simp [ht]
        rw [he2_def, htrig]
        simp only [Bool.false_eq_true, if_false]
        rw [hnat_app, hnat hl, Nat.max_comm]
      have hnlo' : natEnd st0 base (ids ++ [oid]) ≤ e2 := by
        rw [hnat_app]
        exact Nat.max_le.mpr ⟨hhi0_le_e2, le_trans hnlo he_le_e2⟩
      have hnhi' : e2 ≤ natEnd st0 base (ids ++ [oid]) + PAGE_SIZE * 256 := by
        rw [hnat_app]
        have hN_le : natEnd st0 base ids ≤ max hi0 (natEnd st0 base ids) := le_max_right _ _
        have hhi0_le : hi0 ≤ max hi0 (natEnd st0 base ids) := le_max_left _ _
        by_cases hl : leap = true
        · -- a leap already happened: no widening this step
          have htrig : (!leap && decide (16 < sc2)) = false := by simp [hl]
          rw [he2_def, htrig]
          simp only [Bool.false_eq_true, if_false]
          exact Nat.max_le.mpr ⟨by omega, by omega⟩
        · rw [Bool.not_eq_true] at hl
          have he_nat : e = natEnd st0 base ids := hnat hl
          by_cases ht : 16 < sc2
          · have htrig : (!leap && decide (16 < sc2)) = true := by simp [hl, ht]
            rw [he2_def, htrig]
            simp only [if_true]
            have : max e hi0 ≤ max hi0 (natEnd st0 base ids) := by
              rw [he_nat]
              exact Nat.max_le.mpr ⟨by omega, by omega⟩
            omega
          · have htrig : (!leap && decide (16 < sc2)) = false := by simp [ht]
            rw [he2_def, htrig]
            simp only [Bool.false_eq_true, if_false]
            rw [he_nat]
            exact Nat.max_le.mpr ⟨by omega, by omega⟩
      obtain ⟨c1, c2, c3, c4, c5, c6, c7, c8, c9, c10, c11⟩ :=
        ih st0 (cur2 + PAGE_SIZE) b2 e2 sc2 leap2 (ids ++ [oid]) base r st'
          ⟨hn1, hInv, hVE, hNP⟩ hres hlive' hnodup' hbc' hext' hcov' hliff' hscore' hnat'
          hnlo' hnhi'
      exact ⟨c1, c2, c3, le_trans c4 hb2_le_b, le_trans he_le_e2 c5, c6, c7, c8, c9, c10, c11⟩

/-- The guarantees of `ResolveOverlaps` from a well-formed state. -/
theorem ResolveOverlaps_spec (fuel : Nat) (st : CacheState) (a w : Nat) (r : OverlapResult)
    (st' : CacheState) (hWF : WF st) (h : ResolveOverlaps fuel st a w = some (r, st')) :
    st' = pickMany st r.ids ∧
    (∀ i ∈ r.ids, Live st i) ∧
    r.ids.Nodup ∧
    r.begin_ ≤ a ∧
    a + w ≤ r.end_ ∧
    (∀ i ∈ r.ids, r.begin_ ≤ extentLo st i ∧ extentHi st i ≤ r.end_) ∧
    (∀ p, r.begin_ / PAGE_SIZE ≤ p → p < divCeil r.end_ PAGE_SIZE →
      st.page_table p = 0 ∨ st.page_table p ∈ r.ids) ∧
    (r.has_stream_leap = true ↔ 16 < scoreSum st r.ids) ∧
    (r.has_stream_leap = false → r.end_ = natEnd st (a + w) r.ids) ∧
    natEnd st (a + w) r.ids ≤ r.end_ ∧
    r.end_ ≤ natEnd st (a + w) r.ids + PAGE_SIZE * 256 := by
  refine resolveGo_spec fuel st a a (a + w) 0 false [] (a + w) r st' hWF h ?_ List.nodup_nil
    (le_refl a) ?_ ?_ ?_ rfl ?_ ?_ ?_
  · simp
  · simp
  · intro p h1 h2
    omega
  · simp
  · intro _
    rfl
  · exact le_refl _
  · exact Nat.le_add_right _ _

/-! ## Frame lemmas: JoinOverlap, DeleteBuffer and the join loop -/

theorem page_table_ChangeRegister (insert : Bool) (bid : BufferId) (st : CacheState) (p : Nat) :
    (ChangeRegister insert bid st).page_table p =
      if pagesLo (bufD st bid) ≤ p ∧ p < pagesHi (bufD st bid) then (if insert then bid else 0)
      else st.page_table p := rfl

theorem bufD_ChangeRegister (insert : Bool) (bid : BufferId) (st : CacheState) (j : BufferId) :
    bufD (ChangeRegister insert bid st) j = bufD st j := rfl

theorem numBuf_ChangeRegister (insert : Bool) (bid : BufferId) (st : CacheState) :
    numBuf (ChangeRegister insert bid st) = numBuf st := rfl

theorem downloads_ChangeRegister (insert : Bool) (bid : BufferId) (st : CacheState) :
    (ChangeRegister insert bid st).downloads = st.downloads := rfl

theorem joinMarkRuns_facts (n : BufferId) (rs : List (Nat × Nat)) :
    ∀ st : CacheState,
      numBuf (joinMarkRuns n rs st) = numBuf st ∧
      (joinMarkRuns n rs st).page_table = st.page_table ∧
      (joinMarkRuns n rs st).downloads = st.downloads ∧
      (∀ j, j ≠ n → bufD (joinMarkRuns n rs st) j = bufD st j) ∧
      (bufD (joinMarkRuns n rs st) n).cpu_addr = (bufD st n).cpu_addr ∧
      (bufD (joinMarkRuns n rs st) n).size_bytes = (bufD st n).size_bytes ∧
      (bufD (joinMarkRuns n rs st) n).alive = (bufD st n).alive ∧
      (bufD (joinMarkRuns n rs st) n).picked = (bufD st n).picked ∧
      (bufD (joinMarkRuns n rs st) n).stream_score = (bufD st n).stream_score := by
  induction rs with
  | nil => intro st; exact ⟨rfl, rfl, rfl, fun _ _ => rfl, rfl, rfl, rfl, rfl, rfl⟩
  | cons r rs ih =>
    intro st
    have hstep : joinMarkRuns n (r :: rs) st = joinMarkRuns n rs
        (setBuf st n (markRegionAsGpuModified (unmarkRegionAsCpuModified (bufD st n) r.1 r.2)
          r.1 r.2)) := rfl
    set b' := markRegionAsGpuModified (unmarkRegionAsCpuModified (bufD st n) r.1 r.2) r.1 r.2
      with hb'_def
    have hfields : b'.cpu_addr = (bufD st n).cpu_addr ∧ b'.size_bytes = (bufD st n).size_bytes ∧
        b'.alive = (bufD st n).alive ∧ b'.picked = (bufD st n).picked ∧
        b'.stream_score = (bufD st n).stream_score := ⟨rfl, rfl, rfl, rfl, rfl⟩
    obtain ⟨i1, i2, i3, i4, i5, i6, i7, i8, i9⟩ := ih (setBuf st n b')
    rw [hstep]
    have hself : bufD (setBuf st n b') n = if n < numBuf st then b' else bufD st n :=
      bufD_setBuf_self st n b'
    refine ⟨by rw [i1, numBuf_setBuf], by rw [i2, page_table_setBuf],
      by rw [i3, downloads_setBuf], ?_, ?_, ?_, ?_, ?_, ?_⟩
    · intro j hj
      rw [i4 j hj, bufD_setBuf_ne st n j b' hj]
    all_goals
      by_cases hn : n < numBuf st
    · rw [i5, hself, if_pos hn, hfields.1]
    · rw [i5, hself, if_neg hn]
    · rw [i6, hself, if_pos hn, hfields.2.1]
    · rw [i6, hself, if_neg hn]
    · rw [i7, hself, if_pos hn, hfields.2.2.1]
    · rw [i7, hself, if_neg hn]
    · rw [i8, hself, if_pos hn, hfields.2.2.2.1]
    · rw [i8, hself, if_neg hn]
    · rw [i9, hself, if_pos hn, hfields.2.2.2.2]
    · rw [i9, hself, if_neg hn]

theorem DeleteBuffer_facts (st : CacheState) (o : BufferId) (ho : o < numBuf st) :
    numBuf (DeleteBuffer st o) = numBuf st ∧
    (∀ p, (DeleteBuffer st o).page_table p =
      if pagesLo (bufD st o) ≤ p ∧ p < pagesHi (bufD st o) then 0 else st.page_table p) ∧
    (DeleteBuffer st o).downloads = st.downloads ∧
    (∀ j, j ≠ o → bufD (DeleteBuffer st o) j = bufD st j) ∧
    (bufD (DeleteBuffer st o) o).alive = false ∧
    (bufD (DeleteBuffer st o) o).cpu_addr = (bufD st o).cpu_addr ∧
    (bufD (DeleteBuffer st o) o).size_bytes = (bufD st o).size_bytes := by
  unfold DeleteBuffer
  set b1 := markRegionAsCpuModified (bufD st o) (bufD st o).cpu_addr (bufD st o).size_bytes
    with hb1_def
  have hb1_fields : b1.cpu_addr = (bufD st o).cpu_addr ∧ b1.size_bytes = (bufD st o).size_bytes :=
    ⟨rfl, rfl⟩
  set st1 := setBuf st o b1 with hst1_def
  have hnum1 : numBuf st1 = numBuf st := numBuf_setBuf st o b1
  have hb1 : bufD st1 o = b1 := bufD_setBuf_eq st o b1 ho
  set st2 := Unregister o st1 with hst2_def
  have hb2 : bufD st2 o = b1 := hb1
  have hnum2 : numBuf st2 = numBuf st := hnum1
  refine ⟨?_, ?_, ?_, ?_, ?_, ?_, ?_⟩
  · rw [numBuf_setBuf, hnum2]
  · intro p
    have hpt2 : st2.page_table p =
        if pagesLo (bufD st1 o) ≤ p ∧ p < pagesHi (bufD st1 o) then 0 else st1.page_table p :=
      page_table_ChangeRegister false o st1 p
    have hlo : pagesLo (bufD st1 o) = pagesLo (bufD st o) := by
      rw [hb1]
      unfold pagesLo
      rw [hb1_fields.1]
    have hhi : pagesHi (bufD st1 o) = pagesHi (bufD st o) := by
      rw [hb1]
      unfold pagesHi
      rw [hb1_fields.1, hb1_fields.2]
    rw [page_table_setBuf, hpt2, hlo, hhi]
    rfl
  · rfl
  · intro j hj
    rw [bufD_setBuf_ne st2 o j _ hj]
    show bufD st1 j = bufD st j
    rw [hst1_def, bufD_setBuf_ne st o j b1 hj]
  · rw [bufD_setBuf_eq st2 o _ (by rw [hnum2]; exact ho)]
  · rw [bufD_setBuf_eq st2 o _ (by rw [hnum2]; exact ho)]
    show (bufD st2 o).cpu_addr = (bufD st o).cpu_addr
    rw [hb2, hb1_fields.1]
  · rw [bufD_setBuf_eq st2 o _ (by rw [hnum2]; exact ho)]
    show (bufD st2 o).size_bytes = (bufD st o).size_bytes
    rw [hb2, hb1_fields.2]

theorem JoinOverlap_facts (st : CacheState) (n o : BufferId) (acc : Bool)
    (hno : o ≠ n) (hn : n < numBuf st) (ho : o < numBuf st) :
    numBuf (JoinOverlap st n o acc).1 = numBuf st ∧
    (∀ p, (JoinOverlap st n o acc).1.page_table p =
      if pagesLo (bufD st o) ≤ p ∧ p < pagesHi (bufD st o) then 0 else st.page_table p) ∧
    (∀ j, j ≠ n → j ≠ o → bufD (JoinOverlap st n o acc).1 j = bufD st j) ∧
    (bufD (JoinOverlap st n o acc).1 o).alive = false ∧
    (bufD (JoinOverlap st n o acc).1 n).cpu_addr = (bufD st n).cpu_addr ∧
    (bufD (JoinOverlap st n o acc).1 n).size_bytes = (bufD st n).size_bytes ∧
    (bufD (JoinOverlap st n o acc).1 n).alive = (bufD st n).alive ∧
    (bufD (JoinOverlap st n o acc).1 n).picked = (bufD st n).picked ∧
    (bufD (JoinOverlap st n o acc).1 n).stream_score =
      (bufD st n).stream_score + (if acc then (bufD st o).stream_score + 1 else 0) := by
  have hon : n ≠ o := fun h => hno h.symm
  set st1 := (if acc then setBuf st n
      { bufD st n with
        stream_score := (bufD st n).stream_score + (bufD st o).stream_score + 1 }
    else st) with hst1_def
  set st2 := joinMarkRuns n (downloadRuns (bufD st o)) st1 with hst2_def
  set st3 := setBuf st2 o { bufD st2 o with gpu_modified := ∅ } with hst3_def
  set st4 := { st3 with downloads := ReplaceBufferDownloads st3.downloads o n } with hst4_def
  have hJ : (JoinOverlap st n o acc).1 = DeleteBuffer st4 o := rfl
  -- step 1 facts
  have h1num : numBuf st1 = numBuf st := by
    rw [hst1_def]
    split
    · exact numBuf_setBuf st n _
    · rfl
  have h1pt : st1.page_table = st.page_table := by
    rw [hst1_def]
    split <;> rfl
  have h1j : ∀ j, j ≠ n → bufD st1 j = bufD st j := by
    intro j hj
    rw [hst1_def]
    split
    · exact bufD_setBuf_ne st n j _ hj
    · rfl
  have h1o : bufD st1 o = bufD st o := h1j o hno
  have h1n_cpu : (bufD st1 n).cpu_addr = (bufD st n).cpu_addr := by
    rw [hst1_def]
    split
    · rw [bufD_setBuf_eq st n _ hn]
    · rfl
  have h1n_size : (bufD st1 n).size_bytes = (bufD st n).size_bytes := by
    rw [hst1_def]
    split
    · rw [bufD_setBuf_eq st n _ hn]
    · rfl
  have h1n_alive : (bufD st1 n).alive = (bufD st n).alive := by
    rw [hst1_def]
    split
    · rw [bufD_setBuf_eq st n _ hn]
    · rfl
  have h1n_picked : (bufD st1 n).picked = (bufD st n).picked := by
    rw [hst1_def]
    split
    · rw [bufD_setBuf_eq st n _ hn]
    · rfl
  have h1n_score : (bufD st1 n).stream_score =
      (bufD st n).stream_score + (if acc then (bufD st o).stream_score + 1 else 0) := by
    rw [hst1_def]
    by_cases hacc : acc = true
    · rw [if_pos hacc, if_pos hacc, bufD_setBuf_eq st n _ hn]
      show (bufD st n).stream_score + (bufD st o).stream_score + 1 =
        (bufD st n).stream_score + ((bufD st o).stream_score + 1)
      omega
    · rw [if_neg hacc, if_neg hacc]
      omega
  -- step 2 facts
  obtain ⟨h2num, h2pt, h2dl, h2j, h2cpu, h2size, h2alive, h2picked, h2score⟩ :=
    joinMarkRuns_facts n (downloadRuns (bufD st o)) st1
  rw [← hst2_def] at h2num h2pt h2dl h2j h2cpu h2size h2alive h2picked h2score
  -- step 3 facts
  have h3num : numBuf st3 = numBuf st := by
    rw [hst3_def, numBuf_setBuf, h2num, h1num]
  have h3pt : st3.page_table = st.page_table := by
    rw [hst3_def, page_table_setBuf, h2pt, h1pt]
  have h3j : ∀ j, j ≠ n → j ≠ o → bufD st3 j = bufD st j := by
    intro j hjn hjo
    rw [hst3_def, bufD_setBuf_ne st2 o j _ hjo, h2j j hjn, h1j j hjn]
  have h3n : bufD st3 n = bufD st2 n := by
    rw [hst3_def, bufD_setBuf_ne st2 o n _ hon]
  have ho2 : o < numBuf st2 := by
    rw [h2num, h1num]
    exact ho
  have h3o_cpu : (bufD st3 o).cpu_addr = (bufD st o).cpu_addr := by
    rw [hst3_def, bufD_setBuf_eq st2 o _ ho2]
    show (bufD st2 o).cpu_addr = (bufD st o).cpu_addr
    rw [h2j o hno, h1o]
  have h3o_size : (bufD st3 o).size_bytes = (bufD st o).size_bytes := by
    rw [hst3_def, bufD_setBuf_eq st2 o _ ho2]
    show (bufD st2 o).size_bytes = (bufD st o).size_bytes
    rw [h2j o hno, h1o]
  -- step 4 changes only the downloads
  have h4buf : ∀ j, bufD st4 j = bufD st3 j := fun _ => rfl
  have h4pt : st4.page_table = st3.page_table := rfl
  have h4num : numBuf st4 = numBuf st3 := rfl
  have ho4 : o < numBuf st4 := by
    rw [h4num, h3num]
    exact ho
  obtain ⟨hDnum, hDpt, hDdl, hDj, hDalive, hDcpu, hDsize⟩ := DeleteBuffer_facts st4 o ho4
  have hpages_lo : pagesLo (bufD st4 o) = pagesLo (bufD st o) := by
    unfold pagesLo
    rw [h4buf, h3o_cpu]
  have hpages_hi : pagesHi (bufD st4 o) = pagesHi (bufD st o) := by
    unfold pagesHi
    rw [h4buf, h3o_cpu, h3o_size]
  refine ⟨?_, ?_, ?_, ?_, ?_, ?_, ?_, ?_, ?_⟩
  · rw [hJ, hDnum, h4num, h3num]
  · intro p
    rw [hJ, hDpt p, hpages_lo, hpages_hi]
    have : st4.page_table p = st.page_table p := by
      rw [h4pt, h3pt]
    rw [this]
  · intro j hjn hjo
    rw [hJ, hDj j hjo, h4buf, h3j j hjn hjo]
  · rw [hJ]
    exact hDalive
  · rw [hJ, hDj n hon, h4buf, h3n, h2cpu, h1n_cpu]
  · rw [hJ, hDj n hon, h4buf, h3n, h2size, h1n_size]
  · rw [hJ, hDj n hon, h4buf, h3n, h2alive, h1n_alive]
  · rw [hJ, hDj n hon, h4buf, h3n, h2picked, h1n_picked]
  · rw [hJ, hDj n hon, h4buf, h3n, h2score, h1n_score]

theorem scoreSum_cons (st : CacheState) (h : BufferId) (t : List BufferId) :
    scoreSum st (h :: t) = (bufD st h).stream_score + scoreSum st t := by
  simp [scoreSum]

theorem joinAll_facts (n : BufferId) (acc : Bool) :
    ∀ (ids : List BufferId) (st : CacheState),
      ids.Nodup → n ∉ ids → n < numBuf st → (∀ m ∈ ids, m < numBuf st) →
      numBuf (joinAll n acc ids st) = numBuf st ∧
      (∀ p m, m ∈ ids → coversPage (bufD st m) p → (joinAll n acc ids st).page_table p = 0) ∧
      (∀ p, (∀ m ∈ ids, ¬ coversPage (bufD st m) p) →
        (joinAll n acc ids st).page_table p = st.page_table p) ∧
      (∀ j, j ≠ n → j ∉ ids → bufD (joinAll n acc ids st) j = bufD st j) ∧
      (∀ m ∈ ids, (bufD (joinAll n acc ids st) m).alive = false) ∧
      (bufD (joinAll n acc ids st) n).cpu_addr = (bufD st n).cpu_addr ∧
      (bufD (joinAll n acc ids st) n).size_bytes = (bufD st n).size_bytes ∧
      (bufD (joinAll n acc ids st) n).alive = (bufD st n).alive ∧
      (bufD (joinAll n acc ids st) n).picked = (bufD st n).picked ∧
      (bufD (joinAll n acc ids st) n).stream_score =
        (bufD st n).stream_score + (if acc then scoreSum st ids + ids.length else 0) := by
  intro ids
  induction ids with
  | nil =>
    intro st _ _ _ _
    refine ⟨rfl, by simp, fun _ _ => rfl, fun _ _ _ => rfl, by simp, rfl, rfl, rfl, rfl, ?_⟩
    cases acc <;> simp [joinAll, scoreSum]
  | cons h t ih =>
    intro st hnodup hnmem hn hmem
    have hh_t : h ∉ t := (List.nodup_cons.mp hnodup).1
    have ht_nodup : t.Nodup := (List.nodup_cons.mp hnodup).2
    have hnh : n ≠ h := fun heq => hnmem (heq ▸ List.mem_cons_self h t)
    have hhn : h ≠ n := fun heq => hnh heq.symm
    have hnt : n ∉ t := fun hmem' => hnmem (List.mem_cons_of_mem h hmem')
    have hh_lt : h < numBuf st := hmem h (List.mem_cons_self h t)
    obtain ⟨jf_num, jf_pt, jf_j, jf_alive, jf_cpu, jf_size, jf_al, jf_pk, jf_score⟩ :=
      JoinOverlap_facts st n h acc hhn hn hh_lt
    set st' := (JoinOverlap st n h acc).1 with hst'_def
    have hstep : joinAll n acc (h :: t) st = joinAll n acc t st' := rfl
    have hbufD_t : ∀ m ∈ t, bufD st' m = bufD st m := by
      intro m hm
      have hm_ne_n : m ≠ n := fun heq => hnt (heq ▸ hm)
      have hm_ne_h : m ≠ h := fun heq => hh_t (heq ▸ hm)
      exact jf_j m hm_ne_n hm_ne_h
    obtain ⟨ih_num, ih_zero, ih_pres, ih_j, ih_alive, ih_cpu, ih_size, ih_al, ih_pk, ih_score⟩ :=
      ih st' ht_nodup hnt (by rw [jf_num]; exact hn)
        (fun m hm => by rw [jf_num]; exact hmem m (List.mem_cons_of_mem h hm))
    rw [hstep]
    refine ⟨by rw [ih_num, jf_num], ?_, ?_, ?_, ?_, by rw [ih_cpu, jf_cpu],
      by rw [ih_size, jf_size], by rw [ih_al, jf_al], by rw [ih_pk, jf_pk], ?_⟩
    · -- pages of a joined overlap are zeroed
      intro p m hm hcov
      rcases List.mem_cons.mp hm with rfl | hm'
      · have hcov2 : pagesLo (bufD st m) ≤ p ∧ p < pagesHi (bufD st m) := hcov
        have hzero : st'.page_table p = 0 := by
          rw [jf_pt p, if_pos hcov2]
        by_cases hex : ∃ m' ∈ t, coversPage (bufD st' m') p
        · obtain ⟨m', hm', hcov'⟩ := hex
          exact ih_zero p m' hm' hcov'
        · push_neg at hex
          rw [ih_pres p hex, hzero]
      · have hcov' : coversPage (bufD st' m) p := by
          rw [hbufD_t m hm']
          exact hcov
        exact ih_zero p m hm' hcov'
    · -- untouched pages are preserved
      intro p hnone
      have hnone' : ∀ m ∈ t, ¬ coversPage (bufD st' m) p := by
        intro m hm
        rw [hbufD_t m hm]
        exact hnone m (List.mem_cons_of_mem h hm)
      have hnone_h : ¬ (pagesLo (bufD st h) ≤ p ∧ p < pagesHi (bufD st h)) :=
        hnone h (List.mem_cons_self h t)
      rw [ih_pres p hnone', jf_pt p, if_neg hnone_h]
    · -- buffers outside the join are untouched
      intro j hjn hjm
      have hjh : j ≠ h := fun heq => hjm (heq ▸ List.mem_cons_self h t)
      have hjt : j ∉ t := fun hm => hjm (List.mem_cons_of_mem h hm)
      rw [ih_j j hjn hjt, jf_j j hjn hjh]
    · -- every joined overlap is dead
      intro m hm
      rcases List.mem_cons.mp hm with rfl | hm'
      · rw [ih_j m (fun heq => hnh heq.symm) hh_t]
        exact jf_alive
      · exact ih_alive m hm'
    · -- stream-score accumulation
      have hss : scoreSum st' t = scoreSum st t :=
        scoreSum_congr (fun m hm => by rw [hbufD_t m hm])
      rw [ih_score, jf_score, hss, scoreSum_cons]
      cases acc
      · simp
      · simp
        omega

theorem page_table_Register (bid : BufferId) (st : CacheState) (q : Nat) :
    (Register bid st).page_table q =
      if pagesLo (bufD st bid) ≤ q ∧ q < pagesHi (bufD st bid) then bid
      else st.page_table q := rfl

theorem bufD_Register (bid : BufferId) (st : CacheState) (j : BufferId) :
    bufD (Register bid st) j = bufD st j := rfl

theorem numBuf_Register (bid : BufferId) (st : CacheState) :
    numBuf (Register bid st) = numBuf st := rfl

theorem coversPage_congr {b b' : Buffer} (hc : b'.cpu_addr = b.cpu_addr)
    (hs : b'.size_bytes = b.size_bytes) (p : Nat) : coversPage b' p ↔ coversPage b p := by
  unfold coversPage pagesLo pagesHi
  rw [hc, hs]

theorem bufD_append_new (st : CacheState) (b : Buffer) :
    bufD { st with slot_buffers := st.slot_buffers ++ [b] } (numBuf st) = b := by
  unfold bufD numBuf
  simp [List.getD_eq_getElem?_getD, List.getElem?_append_right (le_refl st.slot_buffers.length)]

theorem bufD_append_old (st : CacheState) (b : Buffer) (j : BufferId) (h : j < numBuf st) :
    bufD { st with slot_buffers := st.slot_buffers ++ [b] } j = bufD st j := by
  have h' : j < st.slot_buffers.length := h
  unfold bufD
  simp [List.getD_eq_getElem?_getD, List.getElem?_append_left h']

/-! ## The CreateBuffer master theorem -/

/-- Everything `CreateBuffer` guarantees from a well-formed state: the fresh
id, the coalesced extent, the stream-score accumulation, the stream-leap
characterization and preservation of the page-table invariant. -/
theorem CreateBuffer_spec (fuel : Nat) (st : CacheState) (a w : Nat)
    (pr : BufferId × CacheState) (hWF : WF st)
    (h : CreateBuffer fuel st a w = some pr) :
    ∃ r st1, ResolveOverlaps fuel st a w = some (r, st1) ∧
      (∀ i ∈ r.ids, Live st i) ∧
      pr.1 = numBuf st ∧
      numBuf pr.2 = numBuf st + 1 ∧
      (bufD pr.2 pr.1).cpu_addr = r.begin_ ∧
      (bufD pr.2 pr.1).size_bytes = r.end_ - r.begin_ ∧
      (bufD pr.2 pr.1).alive = true ∧
      r.begin_ ≤ a ∧ a + w ≤ r.end_ ∧
      (bufD pr.2 pr.1).stream_score =
        (if r.has_stream_leap = true then 0 else scoreSum st r.ids + r.ids.length) ∧
      (r.has_stream_leap = true ↔ 16 < scoreSum st r.ids) ∧
      (r.has_stream_leap = false → r.end_ = natEnd st (a + w) r.ids) ∧
      natEnd st (a + w) r.ids ≤ r.end_ ∧
      r.end_ ≤ natEnd st (a + w) r.ids + PAGE_SIZE * 256 ∧
      WF pr.2 := by
  obtain ⟨hn1, hInv, hVE, hNP⟩ := hWF
  rw [CreateBuffer, Option.map_eq_some'] at h
  obtain ⟨q, hq, hfq⟩ := h
  obtain ⟨r, st1⟩ := q
  dsimp only at hfq
  obtain ⟨hst1, hliveIds, hnodupIds, hba, hwe, hexts, hcover, hliff, hnat, hnlo, hnhi⟩ :=
    ResolveOverlaps_spec fuel st a w r st1 ⟨hn1, hInv, hVE, hNP⟩ hq
  -- names for the intermediate states
  have hnum1 : numBuf st1 = numBuf st := by rw [hst1, numBuf_pickMany]
  have hpt1 : st1.page_table = st.page_table := by rw [hst1, page_table_pickMany]
  set nb := newBuffer r.begin_ (r.end_ - r.begin_) with hnb_def
  set st2 := { st1 with slot_buffers := st1.slot_buffers ++ [nb] } with hst2_def
  set nid := numBuf st1 with hnid_def
  have hnid_st : nid = numBuf st := hnum1
  set acc := !r.has_stream_leap with hacc_def
  set st3 := joinAll nid acc r.ids st2 with hst3_def
  have hpr1 : pr.1 = nid := by rw [← hfq]
  have hpr2 : pr.2 = Register nid st3 := by rw [← hfq]
  -- facts about st2
  have hnum2 : numBuf st2 = numBuf st + 1 := by
    have hlen : st1.slot_buffers.length = numBuf st := hnum1
    rw [hst2_def]
    show (st1.slot_buffers ++ [nb]).length = numBuf st + 1
    rw [List.length_append, hlen]
    rfl
  have hpt2 : st2.page_table = st.page_table := by
    rw [hst2_def]
    exact hpt1
  have hnum1' : numBuf st1 = numBuf st := hnum1
  have hb2_new : bufD st2 nid = nb := bufD_append_new st1 nb
  have hb2_old : ∀ j, j < numBuf st → bufD st2 j = bufD st1 j := by
    intro j hj
    exact bufD_append_old st1 nb j (by rw [hnum1']; exact hj)
  have hb2_full : ∀ j, j < numBuf st → j ∉ r.ids → bufD st2 j = bufD st j := by
    intro j hj hjm
    rw [hb2_old j hj, hst1, bufD_pickMany]
    simp [hjm]
  clear_value nid nb acc st2 st3
  -- hypotheses for the join loop
  have hnid_notmem : nid ∉ r.ids := by
    intro hmem
    have hlt := (hliveIds nid hmem).2.1
    exact absurd hnid_st (Nat.ne_of_lt hlt)
  have hmem_lt : ∀ m ∈ r.ids, m < numBuf st2 := by
    intro m hm
    have hlt := (hliveIds m hm).2.1
    rw [hnum2]
    exact Nat.lt_succ_of_lt hlt
  have hnid_lt : nid < numBuf st2 := by
    rw [hnum2, hnid_st]
    exact Nat.lt_succ_self _
  obtain ⟨ja_num, ja_zero, ja_pres, ja_j, ja_alive, ja_cpu, ja_size, ja_al, ja_pk, ja_score⟩ :=
    joinAll_facts nid acc r.ids st2 hnodupIds hnid_notmem hnid_lt hmem_lt
  rw [← hst3_def] at ja_num ja_zero ja_pres ja_j ja_alive ja_cpu ja_size ja_al ja_pk ja_score
  -- the new buffer's fields survive the join loop
  have h3_cpu : (bufD st3 nid).cpu_addr = r.begin_ := by
    rw [ja_cpu, hb2_new, hnb_def]
    rfl
  have h3_size : (bufD st3 nid).size_bytes = r.end_ - r.begin_ := by
    rw [ja_size, hb2_new, hnb_def]
    rfl
  have h3_alive : (bufD st3 nid).alive = true := by
    rw [ja_al, hb2_new, hnb_def]
    rfl
  have h3_picked : (bufD st3 nid).picked = false := by
    rw [ja_pk, hb2_new, hnb_def]
    rfl
  have hscore2 : scoreSum st2 r.ids = scoreSum st r.ids := by
    refine scoreSum_congr ?_
    intro m hm
    rw [hb2_old m (hliveIds m hm).2.1, hst1, (bufD_pickMany_fields st r.ids m).2.2.2]
  have h3_score : (bufD st3 nid).stream_score =
      (if r.has_stream_leap = true then 0 else scoreSum st r.ids + r.ids.length) := by
    rw [ja_score, hb2_new, hnb_def]
    show 0 + (if acc = true then scoreSum st2 r.ids + r.ids.length else 0) = _
    rw [hacc_def]
    cases hl : r.has_stream_leap <;> simp [hscore2]
  -- extent bound for the coalesced buffer
  have hbe : r.begin_ ≤ r.end_ := le_trans hba (le_trans (Nat.le_add_right a w) hwe)
  have hsum_be : r.begin_ + (r.end_ - r.begin_) = r.end_ := Nat.add_sub_cancel' hbe
  -- the register range is exactly the page span of [begin, end)
  have hreg_lo : pagesLo (bufD st3 nid) = r.begin_ / PAGE_SIZE := by
    unfold pagesLo
    rw [h3_cpu]
  have hreg_hi : pagesHi (bufD st3 nid) = divCeil r.end_ PAGE_SIZE := by
    unfold pagesHi
    rw [h3_cpu, h3_size, hsum_be]
  -- key page facts
  have hK1 : ∀ m ∈ r.ids, ∀ q, coversPage (bufD st2 m) q →
      r.begin_ / PAGE_SIZE ≤ q ∧ q < divCeil r.end_ PAGE_SIZE := by
    intro m hm q hcov
    have hfl : (bufD st2 m).cpu_addr = (bufD st m).cpu_addr := by
      rw [hb2_old m (hliveIds m hm).2.1, hst1, (bufD_pickMany_fields st r.ids m).1]
    have hfs : (bufD st2 m).size_bytes = (bufD st m).size_bytes := by
      rw [hb2_old m (hliveIds m hm).2.1, hst1, (bufD_pickMany_fields st r.ids m).2.1]
    have hcov' : coversPage (bufD st m) q := (coversPage_congr hfl hfs q).mp hcov
    exact coversPage_within (hexts m hm).1 (hexts m hm).2 hcov'
  have hK2 : ∀ q, ¬ (r.begin_ / PAGE_SIZE ≤ q ∧ q < divCeil r.end_ PAGE_SIZE) →
      st3.page_table q = st.page_table q := by
    intro q hq'
    rw [ja_pres q (fun m hm hcov => hq' (hK1 m hm q hcov))]
    rw [hpt2]
  have hK3 : ∀ q, ¬ (r.begin_ / PAGE_SIZE ≤ q ∧ q < divCeil r.end_ PAGE_SIZE) →
      st.page_table q ∉ r.ids := by
    intro q hq' hmem
    have hlive_e := hliveIds _ hmem
    have hcov : coversPage (bufD st (st.page_table q)) q :=
      (hInv _ hlive_e q).mpr rfl
    exact hq' (coversPage_within (hexts _ hmem).1 (hexts _ hmem).2 hcov)
  -- survivors keep their buffer verbatim
  have hsurv : ∀ j, j < numBuf st → j ∉ r.ids → bufD pr.2 j = bufD st j := by
    intro j hj hjm
    have hjn : j ≠ nid := by omega
    rw [hpr2, bufD_Register, ja_j j hjn hjm, hb2_full j hj hjm]
  -- the final page table
  have hpt_final : ∀ q, pr.2.page_table q =
      if r.begin_ / PAGE_SIZE ≤ q ∧ q < divCeil r.end_ PAGE_SIZE then nid
      else st3.page_table q := by
    intro q
    rw [hpr2, page_table_Register, hreg_lo, hreg_hi]
  have hnum_final : numBuf pr.2 = numBuf st + 1 := by
    rw [hpr2, numBuf_Register, ja_num, hnum2]
  have hbuf_final : ∀ j, bufD pr.2 j = bufD st3 j := by
    intro j
    rw [hpr2, bufD_Register]
  -- the new buffer, seen through the final state
  have hf_cpu : (bufD pr.2 nid).cpu_addr = r.begin_ := by rw [hbuf_final, h3_cpu]
  have hf_size : (bufD pr.2 nid).size_bytes = r.end_ - r.begin_ := by rw [hbuf_final, h3_size]
  have hf_alive : (bufD pr.2 nid).alive = true := by rw [hbuf_final, h3_alive]
  have hf_covers : ∀ q, coversPage (bufD pr.2 nid) q ↔
      (r.begin_ / PAGE_SIZE ≤ q ∧ q < divCeil r.end_ PAGE_SIZE) := by
    intro q
    unfold coversPage pagesLo pagesHi
    rw [hf_cpu, hf_size, hsum_be]
  -- membership classification of live slots in the final state
  have hlive_final : ∀ j, Live pr.2 j → j ≠ nid → (j < numBuf st ∧ j ∉ r.ids ∧ Live st j) := by
    intro j hLj hjn
    obtain ⟨hj0, hjlt, hjal⟩ := hLj
    have hjlt' : j < numBuf st := by
      rw [hnum_final] at hjlt
      rcases Nat.lt_succ_iff_lt_or_eq.mp hjlt with h | h
      · exact h
      · exact absurd (h.trans hnid_st.symm) hjn
    have hjm : j ∉ r.ids := by
      intro hmem
      have : (bufD st3 j).alive = false := ja_alive j hmem
      rw [hbuf_final] at hjal
      rw [this] at hjal
      exact absurd hjal (by simp)
    refine ⟨hjlt', hjm, hj0, hjlt', ?_⟩
    have := hsurv j hjlt' hjm
    rw [← this]
    exact hjal
  refine ⟨r, st1, hq, hliveIds, by rw [hpr1, hnid_st], hnum_final, by rw [hpr1]; exact hf_cpu,
    by rw [hpr1]; exact hf_size, by rw [hpr1]; exact hf_alive, hba, hwe,
    by rw [hpr1, hbuf_final]; exact h3_score, hliff, hnat, hnlo, hnhi, ?_, ?_, ?_, ?_⟩
  · -- 1 ≤ numBuf
    rw [hnum_final]
    omega
  · -- page-table exactness
    intro j hLj q
    by_cases hjn : j = nid
    · subst hjn
      rw [hf_covers q, hpt_final q]
      constructor
      · intro hin
        rw [if_pos hin]
      · intro heq
        by_contra hin
        rw [if_neg hin] at heq
        have h3q : st3.page_table q = st.page_table q := hK2 q hin
        rw [h3q] at heq
        rcases hVE q with h0 | hLe
        · rw [h0] at heq
          have hz : numBuf st = 0 := hnid_st.symm.trans heq.symm
          exact absurd hz (Nat.pos_iff_ne_zero.mp hn1)
        · have hlt2 := hLe.2.1
          rw [heq] at hlt2
          exact absurd hnid_st (Nat.ne_of_lt hlt2)
    · obtain ⟨hjlt, hjm, hLstj⟩ := hlive_final j hLj hjn
      have hfull := hsurv j hjlt hjm
      rw [hfull]
      constructor
      · intro hcov
        have hptst : st.page_table q = j := (hInv j hLstj q).mp hcov
        have hnin : ¬ (r.begin_ / PAGE_SIZE ≤ q ∧ q < divCeil r.end_ PAGE_SIZE) := by
          intro hin
          rcases hcover q hin.1 hin.2 with h0 | hm
          · exact hLstj.1 (hptst.symm.trans h0)
          · rw [hptst] at hm
            exact hjm hm
        rw [hpt_final q, if_neg hnin, hK2 q hnin]
        exact hptst
      · intro heq
        have hnin : ¬ (r.begin_ / PAGE_SIZE ≤ q ∧ q < divCeil r.end_ PAGE_SIZE) := by
          intro hin
          rw [hpt_final q, if_pos hin] at heq
          exact hjn heq.symm
        rw [hpt_final q, if_neg hnin, hK2 q hnin] at heq
        exact (hInv j hLstj q).mpr heq
  · -- every non-null page entry denotes a live buffer
    intro q
    by_cases hin : r.begin_ / PAGE_SIZE ≤ q ∧ q < divCeil r.end_ PAGE_SIZE
    · right
      rw [hpt_final q, if_pos hin]
      exact ⟨by rw [hnid_st]; exact Nat.pos_iff_ne_zero.mp hn1,
        by rw [hnum_final, hnid_st]; exact Nat.lt_succ_self _, hf_alive⟩
    · rw [hpt_final q, if_neg hin, hK2 q hin]
      rcases hVE q with h0 | hLe
      · exact Or.inl h0
      · right
        have hem : st.page_table q ∉ r.ids := hK3 q hin
        have hlt : st.page_table q < numBuf st := hLe.2.1
        have hfull := hsurv _ hlt hem
        exact ⟨hLe.1, by rw [hnum_final]; exact Nat.lt_succ_of_lt hlt,
          by rw [hfull]; exact hLe.2.2⟩
  · -- no live buffer is left picked
    intro j hLj
    by_cases hjn : j = nid
    · subst hjn
      rw [hbuf_final, h3_picked]
    · obtain ⟨hjlt, hjm, hLstj⟩ := hlive_final j hLj hjn
      rw [hsurv j hjlt hjm]
      exact hNP j hLstj

/-! ## Well-formedness of the initial state and its preservation -/

theorem wf_initState : WF initState := by
  refine ⟨le_refl 1, ?_, ?_, ?_⟩
  · rintro i ⟨h0, hlt, _⟩ p
    have h1 : numBuf initState = 1 := rfl
    rw [h1] at hlt
    exact absurd (Nat.lt_one_iff.mp hlt) h0
  · intro p
    exact Or.inl rfl
  · rintro i ⟨h0, hlt, _⟩
    have h1 : numBuf initState = 1 := rfl
    rw [h1] at hlt
    exact absurd (Nat.lt_one_iff.mp hlt) h0

/-- Replacing a slot's buffer by one with the same extent, liveness and
picked flag preserves the invariant. -/
theorem WF_setBuf_frame (st : CacheState) (i : BufferId) (b : Buffer)
    (hcpu : b.cpu_addr = (bufD st i).cpu_addr)
    (hsize : b.size_bytes = (bufD st i).size_bytes)
    (hal : b.alive = (bufD st i).alive)
    (hpk : b.picked = (bufD st i).picked)
    (hWF : WF st) : WF (setBuf st i b) := by
  obtain ⟨hn1, hInv, hVE, hNP⟩ := hWF
  have hb : ∀ j, (bufD (setBuf st i b) j).cpu_addr = (bufD st j).cpu_addr ∧
      (bufD (setBuf st i b) j).size_bytes = (bufD st j).size_bytes ∧
      (bufD (setBuf st i b) j).alive = (bufD st j).alive ∧
      (bufD (setBuf st i b) j).picked = (bufD st j).picked := by
    intro j
    by_cases hj : j = i
    · subst hj
      rw [bufD_setBuf_self]
      by_cases hlt : j < numBuf st
      · rw [if_pos hlt]
        exact ⟨hcpu, hsize, hal, hpk⟩
      · rw [if_neg hlt]
        exact ⟨rfl, rfl, rfl, rfl⟩
    · rw [bufD_setBuf_ne st i j b hj]
      exact ⟨rfl, rfl, rfl, rfl⟩
  have hLiveIff : ∀ j, Live (setBuf st i b) j ↔ Live st j := by
    intro j
    unfold Live
    rw [numBuf_setBuf, (hb j).2.2.1]
  refine ⟨by rw [numBuf_setBuf]; exact hn1, ?_, ?_, ?_⟩
  · intro j hLj p
    rw [page_table_setBuf, coversPage_congr (hb j).1 (hb j).2.1 p]
    exact hInv j ((hLiveIff j).mp hLj) p
  · intro p
    rw [page_table_setBuf]
    rcases hVE p with h0 | hL
    · exact Or.inl h0
    · exact Or.inr ((hLiveIff _).mpr hL)
  · intro j hLj
    rw [(hb j).2.2.2]
    exact hNP j ((hLiveIff j).mp hLj)

/-- `MarkWrittenBuffer` only adds GPU-modified bytes and queues a download;
the page-table invariant is untouched. -/
theorem WF_MarkWrittenBuffer (st : CacheState) (bid : BufferId) (a s : Nat)
    (hi asy : Bool) (hWF : WF st) : WF (MarkWrittenBuffer st bid a s hi asy) := by
  have h1 : WF (setBuf st bid (markRegionAsGpuModified (bufD st bid) a s)) :=
    WF_setBuf_frame st bid _ rfl rfl rfl rfl hWF
  rw [MarkWrittenBuffer]
  split
  · exact h1
  · obtain ⟨hn1, hInv, hVE, hNP⟩ := h1
    exact ⟨hn1, hInv, hVE, hNP⟩

/-- `FindBuffer` preserves the invariant on every branch: it either returns
the state unchanged or defers to `CreateBuffer`. -/
theorem WF_FindBuffer (fuel : Nat) (st : CacheState) (a : VAddr) (s : Nat)
    (pr : BufferId × CacheState) (hWF : WF st) (h : FindBuffer fuel st a s = some pr) :
    WF pr.2 := by
  have hcb : CreateBuffer fuel st a s = some pr → WF pr.2 := by
    intro hc
    obtain ⟨r, st1, _, _, _, _, _, _, _, _, _, _, _, _, _, _, hwf⟩ :=
      CreateBuffer_spec fuel st a s pr hWF hc
    exact hwf
  rw [FindBuffer] at h
  dsimp only at h
  by_cases ha : a = 0
  · rw [if_pos ha] at h
    obtain rfl : ((0 : BufferId), st) = pr := Option.some.inj h
    exact hWF
  · rw [if_neg ha] at h
    by_cases hbid : st.page_table (a / PAGE_SIZE) = 0
    · rw [if_pos hbid] at h
      exact hcb h
    · rw [if_neg hbid] at h
      by_cases hib : IsInBounds (bufD st (st.page_table (a / PAGE_SIZE))) a s = true
      · rw [if_pos hib] at h
        obtain rfl : (st.page_table (a / PAGE_SIZE), st) = pr := Option.some.inj h
        exact hWF
      · rw [if_neg hib] at h
        exact hcb h

/-- Page-table exactness forces the extents of distinct live buffers to be
page-disjoint. -/
theorem WF_page_disjoint (st : CacheState) (hWF : WF st) (i j : BufferId)
    (hi : Live st i) (hj : Live st j) (hij : i ≠ j) (p : Nat) :
    ¬(coversPage (bufD st i) p ∧ coversPage (bufD st j) p) := by
  rintro ⟨hci, hcj⟩
  have h1 := (hWF.2.1 i hi p).mp hci
  have h2 := (hWF.2.1 j hj p).mp hcj
  exact hij (h1.symm.trans h2)

/-- `Unregister` resets exactly the buffer's pages to the null id. -/
theorem Unregister_exact (st : CacheState) (bid : BufferId) (p : Nat) :
    (Unregister bid st).page_table p =
      if coversPage (bufD st bid) p then 0 else st.page_table p := by
  by_cases hc : coversPage (bufD st bid) p
  · have hc' : pagesLo (bufD st bid) ≤ p ∧ p < pagesHi (bufD st bid) := hc
    rw [Unregister, page_table_ChangeRegister, if_pos hc', if_pos hc]
    rfl
  · have hc' : ¬(pagesLo (bufD st bid) ≤ p ∧ p < pagesHi (bufD st bid)) := hc
    rw [Unregister, page_table_ChangeRegister, if_neg hc', if_neg hc]

/-! ## Claims C4, C6 and C8 -/

/-- C4 (counterexample): `FindBuffer(0, size)` takes the `cpu_addr == 0`
early-out and returns the null buffer id, but the null buffer (address 0,
size 0) does not contain `[0, 0 + size)` for any positive size, so the
claim's "in every case `slot_buffers[id].IsInBounds(cpu_addr, size)`" fails
at `cpu_addr = 0`. -/
theorem C4_counterexample :
    FindBuffer 1 initState 0 4 = some (0, initState) ∧
    IsInBounds (bufD initState 0) 0 4 = false := by
  constructor
  · rfl
  · decide

/-- C4 (amended): for every `cpu_addr ≠ 0`, `FindBuffer` returns the buffer
recorded in the page table at `cpu_addr`'s page when that buffer's extent
fully contains `[cpu_addr, cpu_addr + size)`, and defers to `CreateBuffer`
(returning the fresh slot id) when the entry is null or out of bounds; on
these branches the returned id's buffer does satisfy
`IsInBounds(cpu_addr, size)`.  (When `cpu_addr = 0` the null id is returned
and the bounds property fails — see the counterexample.) -/
theorem C4_find_buffer_amended (fuel : Nat) (st : CacheState) (a : VAddr) (s : Nat)
    (pr : BufferId × CacheState) (hWF : WF st) (ha : a ≠ 0)
    (h : FindBuffer fuel st a s = some pr) :
    ((st.page_table (a / PAGE_SIZE) ≠ 0 ∧
        IsInBounds (bufD st (st.page_table (a / PAGE_SIZE))) a s = true) →
      pr = (st.page_table (a / PAGE_SIZE), st)) ∧
    ((st.page_table (a / PAGE_SIZE) = 0 ∨
        IsInBounds (bufD st (st.page_table (a / PAGE_SIZE))) a s = false) →
      CreateBuffer fuel st a s = some pr ∧ pr.1 = numBuf st) ∧
    IsInBounds (bufD pr.2 pr.1) a s = true := by
  have hcb : CreateBuffer fuel st a s = some pr →
      pr.1 = numBuf st ∧ IsInBounds (bufD pr.2 pr.1) a s = true := by
    intro hc
    obtain ⟨r, st1, _, _, hpr1, _, hcpu, hsize, _, hba, hwe, _, _, _, _, _, _⟩ :=
      CreateBuffer_spec fuel st a s pr hWF hc
    have hbe : r.begin_ ≤ r.end_ := le_trans hba (le_trans (Nat.le_add_right a s) hwe)
    refine ⟨hpr1, ?_⟩
    simp only [IsInBounds, hcpu, hsize, Bool.and_eq_true, decide_eq_true_eq]
    exact ⟨hba, by rw [Nat.add_sub_cancel' hbe]; exact hwe⟩
  rw [FindBuffer] at h
  dsimp only at h
  rw [if_neg ha] at h
  by_cases hbid : st.page_table (a / PAGE_SIZE) = 0
  · rw [if_pos hbid] at h
    obtain ⟨hpr1, hbounds⟩ := hcb h
    exact ⟨fun hc => absurd hbid hc.1, fun _ => ⟨h, hpr1⟩, hbounds⟩
  · rw [if_neg hbid] at h
    by_cases hib : IsInBounds (bufD st (st.page_table (a / PAGE_SIZE))) a s = true
    · rw [if_pos hib] at h
      obtain rfl : (st.page_table (a / PAGE_SIZE), st) = pr := Option.some.inj h
      refine ⟨fun _ => rfl, fun hc => ?_, hib⟩
      rcases hc with hc | hc
      · exact absurd hc hbid
      · exact Bool.noConfusion (hib.symm.trans hc)
    · rw [if_neg hib] at h
      obtain ⟨hpr1, hbounds⟩ := hcb h
      exact ⟨fun hc => absurd hc.2 hib, fun _ => ⟨h, hpr1⟩, hbounds⟩

theorem C4_witness :
    IsInBounds (bufD (Register 1 { initState with
      slot_buffers := initState.slot_buffers ++ [newBuffer 65536 16] }) 1) 65536 16 = true :=
  (C4_find_buffer_amended 4 initState 65536 16
    (1, Register 1 { initState with
      slot_buffers := initState.slot_buffers ++ [newBuffer 65536 16] })
    wf_initState (by decide) rfl).2.2

/-- C6: page-table exactness.  The invariant (every live buffer's pages map
exactly to it) holds in the initial state, is preserved by `FindBuffer`
(hence by `CreateBuffer`, `ResolveOverlaps`, `JoinOverlap` and
`DeleteBuffer`, which it drives) and by `MarkWrittenBuffer`; it forces the
extents of any two distinct live buffers to be page-disjoint; and
`Unregister` resets exactly the buffer's pages to the null id. -/
theorem C6_page_table_exactness :
    WF initState ∧
    (∀ fuel st a s pr, WF st → FindBuffer fuel st a s = some pr → WF pr.2) ∧
    (∀ st bid a s hi asy, WF st → WF (MarkWrittenBuffer st bid a s hi asy)) ∧
    (∀ st, WF st → ∀ i j, Live st i → Live st j → i ≠ j →
      ∀ p, ¬(coversPage (bufD st i) p ∧ coversPage (bufD st j) p)) ∧
    (∀ st bid p, (Unregister bid st).page_table p =
      if coversPage (bufD st bid) p then 0 else st.page_table p) :=
  ⟨wf_initState,
   fun fuel st a s pr hWF h => WF_FindBuffer fuel st a s pr hWF h,
   fun st bid a s hi asy hWF => WF_MarkWrittenBuffer st bid a s hi asy hWF,
   fun st hWF i j hi hj hij p => WF_page_disjoint st hWF i j hi hj hij p,
   fun st bid p => Unregister_exact st bid p⟩

theorem C6_witness :
    WF (Register 1 { initState with
      slot_buffers := initState.slot_buffers ++ [newBuffer 65536 16] }) :=
  C6_page_table_exactness.2.1 4 initState 65536 16
    (1, Register 1 { initState with
      slot_buffers := initState.slot_buffers ++ [newBuffer 65536 16] })
    wf_initState rfl

/-- C8: the stream leap triggers exactly when the accumulated stream score
of the picked overlaps exceeds 16; without a leap the coalesced end is
exactly the natural end (the maximum of the request end and the overlap
extents), and with one it exceeds it by at most one widening of
`256 * PAGE_SIZE` (the `!has_stream_leap` guard fires at most once per
resolve); and `CreateBuffer` hands `accumulate = !has_stream_leap` to the
join loop over exactly the resolved ids. -/
theorem C8_stream_leap (fuel : Nat) (st : CacheState) (a w : Nat) (r : OverlapResult)
    (st1 : CacheState) (hWF : WF st)
    (h : ResolveOverlaps fuel st a w = some (r, st1)) :
    (r.has_stream_leap = true ↔ 16 < scoreSum st r.ids) ∧
    (r.has_stream_leap = false → r.end_ = natEnd st (a + w) r.ids) ∧
    natEnd st (a + w) r.ids ≤ r.end_ ∧
    r.end_ ≤ natEnd st (a + w) r.ids + PAGE_SIZE * 256 ∧
    CreateBuffer fuel st a w =
      some (numBuf st1, Register (numBuf st1)
        (joinAll (numBuf st1) (!r.has_stream_leap) r.ids
          { st1 with slot_buffers :=
              st1.slot_buffers ++ [newBuffer r.begin_ (r.end_ - r.begin_)] })) := by
  obtain ⟨_, _, _, _, _, _, _, hiff, hnat, hnlo, hnhi⟩ :=
    ResolveOverlaps_spec fuel st a w r st1 hWF h
  refine ⟨hiff, hnat, hnlo, hnhi, ?_⟩
  rw [CreateBuffer, h]
  rfl

theorem C8_witness :
    (({ ids := [], begin_ := 65536, end_ := 65552, has_stream_leap := false } :
        OverlapResult).has_stream_leap = true ↔ 16 < scoreSum initState []) :=
  (C8_stream_leap 2 initState 65536 16
    { ids := [], begin_ := 65536, end_ := 65552, has_stream_leap := false }
    initState wf_initState rfl).1

end VideoCommon
